import Mathlib

/-!
# Verification of the go-thrift dynamic RPC client (`connector` package)

Shallow embedding of `src/connector/service.go` and `src/connector/client.go`
(the current revision of `client.go`; the earlier revision in the file history
is noted where a claim refers to it).

Modelling conventions:
* Go `map[string]T` values are modelled as association lists with first-match
  lookup (`alookup`) and replace-or-append assignment (`aset`); Go map
  iteration is modelled as list order (Go leaves the order unspecified).
* The binary wire protocol (`thrift.TBinaryProtocol`, external to the repo) is
  modelled at the protocol-operation boundary as a list of typed tokens `Tok`.
  Operations that write no bytes in the binary protocol (struct begin/end,
  field end, message end, flush) are no-ops.  A field header is a type byte
  followed by an i16 id; the field stop marker is a single `0` byte, exactly
  as in the binary protocol.
* Go `float64` is modelled as an exact rational (`Rat`); `strconv.ParseFloat`
  is modelled on plain decimal numerals.  Floating-point rounding, hex/exp
  forms, Inf and NaN are outside the model.
* Go slice indexing out of range and nil-pointer dereference are modelled as a
  distinct `panicked` outcome.
* Machine integer conversions (`int16(x)`, `int32(x)`) are modelled by
  explicit two's-complement wrapping on `Int`.
-/

namespace GoThrift

/-- Go `map[string]A` read `m[k]`: first-match lookup in the association list. -/
def alookup {α : Type} : List (String × α) → String → Option α
  | [], _ => none
  | (k, v) :: rest, key => if k = key then some v else alookup rest key

/-- Go `map[string]A` write `m[k] = v`: replace the binding if present, else append. -/
def aset {α : Type} : List (String × α) → String → α → List (String × α)
  | [], key, v => [(key, v)]
  | (k, w) :: rest, key, v =>
    if k = key then (k, v) :: rest else (k, w) :: aset rest key v

/-- Keys of an association list. -/
def akeys {α : Type} (m : List (String × α)) : List String := m.map Prod.fst

/- `thrift.TType` wire-tag constants (a Go `byte`; modelled as `Int` so that
arbitrary wire bytes can be represented). -/
namespace TType

def STOP : Int := 0
def VOID : Int := 1
def BOOL : Int := 2
def BYTE : Int := 3
def DOUBLE : Int := 4
def I16 : Int := 6
def I32 : Int := 8
def I64 : Int := 10
def STRING : Int := 11
def STRUCT : Int := 12
def MAP : Int := 13
def SET : Int := 14
def LIST : Int := 15
def UTF8 : Int := 16
def UTF16 : Int := 17

end TType

/- `thrift.TMessageType` constants. -/
namespace MType

def CALL : Int := 1
def REPLY : Int := 2
def EXCEPTION : Int := 3

end MType

/-- `thrift.BAD_SEQUENCE_ID` application-exception type id. -/
def BAD_SEQUENCE_ID : Int := 4

/-- `thrift.UNKNOWN_APPLICATION_EXCEPTION` application-exception type id. -/
def UNKNOWN_APPLICATION_EXCEPTION : Int := 6

/-- Go `int16(x)` conversion: two's-complement wrap to 16 bits. -/
def wrap16 (n : Int) : Int := (n + 2 ^ 15) % 2 ^ 16 - 2 ^ 15

/-- Go `int32(x)` conversion: two's-complement wrap to 32 bits. -/
def wrap32 (n : Int) : Int := (n + 2 ^ 31) % 2 ^ 32 - 2 ^ 31

/-- Go float-to-integer conversion truncates toward zero. -/
def qtrunc (q : Rat) : Int := if 0 ≤ q then ⌊q⌋ else ⌈q⌉

/-- Decimal digit run to a natural number; `none` unless nonempty and all digits. -/
def digitsToNat : List Char → Option Nat
  | [] => none
  | cs =>
    if cs.all Char.isDigit then
      some (cs.foldl (fun acc c => acc * 10 + (c.toNat - 48)) 0)
    else none

/-- `strconv.ParseInt(s, 10, 0)` (64-bit result): optional sign, decimal digits,
result within the `int64` range, otherwise an error (`none`).  On overflow Go
returns an error together with a clamped value; the callers in `client.go` treat
any error as failure, so `none` is the faithful summary. -/
def goParseInt (s : String) : Option Int :=
  let signed : List Char → Option Int
    | '+' :: rest => (digitsToNat rest).map Int.ofNat
    | '-' :: rest => (digitsToNat rest).map (fun n => -(Int.ofNat n))
    | cs => (digitsToNat cs).map Int.ofNat
  match signed s.data with
  | some n => if -(2 ^ 63) ≤ n ∧ n < 2 ^ 63 then some n else none
  | none => none

/-- `strconv.ParseFloat(s, 64)`, modelled at the codec boundary on plain decimal
numerals `[sign] digits [. digits]` mapped to exact rationals.  Exponent and hex
forms, Inf/NaN, and float64 rounding are outside the model. -/
def goParseFloat (s : String) : Option Rat :=
  let unsigned : List Char → Option Rat := fun cs =>
    match cs.splitOn '.' with
    | [intPart] => (digitsToNat intPart).map (fun n => (n : Rat))
    | [intPart, fracPart] =>
      match digitsToNat intPart, digitsToNat fracPart with
      | some n, some f => some ((n : Rat) + (f : Rat) / ((10 : Rat) ^ fracPart.length))
      | _, _ => none
    | _ => none
  match s.data with
  | '+' :: rest => unsigned rest
  | '-' :: rest => (unsigned rest).map Neg.neg
  | cs => unsigned cs

/-- Generic runtime value (`interface{}`) as exchanged across the codec:
the variants the spec's generic-value model names, plus the exact integer
widths the read path produces (`ReadByte`, `ReadI16`, `ReadI32`, `ReadI64`)
and `vnil` for Go's nil interface (void reads). -/
inductive GoValue : Type where
  | vnil : GoValue
  | vbool (b : Bool) : GoValue
  | vbyte (n : Int) : GoValue
  | vi16 (n : Int) : GoValue
  | vi32 (n : Int) : GoValue
  | vi64 (n : Int) : GoValue
  | vdouble (q : Rat) : GoValue
  | vstr (s : String) : GoValue
  | vlist (xs : List GoValue) : GoValue
  | vmap (kvs : List (String × GoValue)) : GoValue

/-- `connector.Int16(value)`: Go type switch over the dynamic type, converting
with `int16(...)` wrapping; strings go through `strconv.ParseInt`. -/
def goInt16 : GoValue → Option Int
  | .vdouble q => some (wrap16 (qtrunc q))
  | .vbyte n => some (wrap16 n)
  | .vi16 n => some (wrap16 n)
  | .vi32 n => some (wrap16 n)
  | .vi64 n => some (wrap16 n)
  | .vstr s => (goParseInt s).map wrap16
  | _ => none

/-- `connector.Int32(value)`. -/
def goInt32 : GoValue → Option Int
  | .vdouble q => some (wrap32 (qtrunc q))
  | .vbyte n => some (wrap32 n)
  | .vi16 n => some (wrap32 n)
  | .vi32 n => some (wrap32 n)
  | .vi64 n => some (wrap32 n)
  | .vstr s => (goParseInt s).map wrap32
  | _ => none

/-- `connector.Int64(value)`. -/
def goInt64 : GoValue → Option Int
  | .vdouble q => some (qtrunc q)
  | .vbyte n => some n
  | .vi16 n => some n
  | .vi32 n => some n
  | .vi64 n => some n
  | .vstr s => goParseInt s
  | _ => none

/-- `connector.Float64(value)`; integer-to-float is exact in this rational model
(the spec declares double-from-integer an exact widen). -/
def goFloat64 : GoValue → Option Rat
  | .vdouble q => some q
  | .vbyte n => some (n : Rat)
  | .vi16 n => some (n : Rat)
  | .vi32 n => some (n : Rat)
  | .vi64 n => some (n : Rat)
  | .vstr s => goParseFloat s
  | _ => none

/-- One protocol-level datum of the binary wire protocol.  Struct begin/end,
field end, message end and flush write nothing in `TBinaryProtocol` and have no
token.  A field header is `tbyte tag` followed by `ti16 id` (`tbyte 0` alone is
the stop marker); a map header is `tbyte kt, tbyte vt, ti32 size`; a list
header is `tbyte et, ti32 size`; a message envelope begin is `tmsg`. -/
inductive Tok : Type where
  | tbool (b : Bool) : Tok
  | tbyte (n : Int) : Tok
  | ti16 (n : Int) : Tok
  | ti32 (n : Int) : Tok
  | ti64 (n : Int) : Tok
  | tdouble (q : Rat) : Tok
  | tstr (s : String) : Tok
  | tmsg (name : String) (typeId : Int) (seqId : Int) : Tok
deriving DecidableEq

/-- `parser.Type`: a type reference from the IDL (`Name`, and the `KeyType` /
`ValueType` references used by container types; `nil` pointers are `none`). -/
inductive PType : Type where
  | mk (name : String) (keyType : Option PType) (valueType : Option PType)

/-- `Type.Name`. -/
def PType.name : PType → String
  | .mk n _ _ => n

/-- `Type.KeyType`. -/
def PType.keyType : PType → Option PType
  | .mk _ k _ => k

/-- `Type.ValueType`. -/
def PType.valueType : PType → Option PType
  | .mk _ _ v => v

/-- A non-container type reference. -/
def PType.base (n : String) : PType := .mk n none none

/-- `parser.Field`: field/argument/exception descriptor. -/
structure Field : Type where
  id : Int
  name : String
  optional : Bool
  type : PType

/-- `parser.Struct`: struct or exception descriptor. -/
structure StructDef : Type where
  name : String
  fields : List Field

/-- `parser.Method`. -/
structure Method : Type where
  name : String
  returnType : PType
  arguments : List Field
  exceptions : List Field

/-- `parser.Service`. -/
structure ParsedService : Type where
  name : String
  methods : List (String × Method)

/-- `parser.Thrift`: the parsed IDL document. -/
structure Thrift : Type where
  services : List (String × ParsedService)
  structs : List (String × StructDef)
  exceptions : List (String × StructDef)
  enums : List String
  typedefs : List (String × String)

/-- The contents of a `map[string]thrift.TType` type registry. -/
def TypeMap : Type := List (String × Int)

/-- The package-level `defultTypeNameMap` in `service.go` (initial contents;
`NewService` mutates the same map object through the `types` alias). -/
def defultTypeNameMap : TypeMap :=
  [("stop", TType.STOP), ("void", TType.VOID), ("bool", TType.BOOL),
   ("byte", TType.BYTE), ("double", TType.DOUBLE), ("i16", TType.I16),
   ("i32", TType.I32), ("i64", TType.I64), ("string", TType.STRING),
   ("struct", TType.STRUCT), ("map", TType.MAP), ("set", TType.SET),
   ("list", TType.LIST), ("utf8", TType.UTF8), ("utf16", TType.UTF16)]

/-- `connector.Service`.  The Go struct also has a `Types` field; in the source
`types = defultTypeNameMap` copies the map reference, not the contents, so
`Types` aliases the package-level map.  The registry is therefore modelled as
an explicit `TypeMap` value for the current contents of that shared map,
threaded through `NewService` and passed to every lookup. -/
structure Service : Type where
  base : ParsedService
  structs : List (String × StructDef)

/-- `Service.LookupType`: total; names absent from the registry yield `STOP`. -/
def LookupType (types : TypeMap) (name : String) : Int :=
  (alookup types name).getD TType.STOP

/-- Outcome of a fallible step: a Go `error`, a `TApplicationException`
returned as an error, a Go runtime panic, or artificial fuel exhaustion
(never reached on the runs the theorems below describe). -/
inductive Failure : Type where
  | err (msg : String) : Failure
  | appExc (typeId : Int) (msg : String) : Failure
  | panicked (msg : String) : Failure
  | fuel : Failure
deriving DecidableEq

/-- The enum-name overlay loop of `NewService` (`types[name] = thrift.I32`). -/
def overlayEnums (types : TypeMap) (enums : List String) : TypeMap :=
  enums.foldl (fun m n => aset m n TType.I32) types

/-- The struct/exception overlay loops of `NewService`
(`types[name] = thrift.STRUCT`). -/
def overlayStructNames (types : TypeMap) (names : List String) : TypeMap :=
  names.foldl (fun m n => aset m n TType.STRUCT) types

/-- The typedef loop of `NewService`: each typedef's target is looked up in the
table built so far; an unresolved target aborts construction.  Returns the
table as mutated up to the failure point together with the error, mirroring
the in-place mutation of the aliased map. -/
def applyTypedefs : TypeMap → List (String × String) → TypeMap × Option String
  | types, [] => (types, none)
  | types, (n, target) :: rest =>
    match alookup types target with
    | some tag => applyTypedefs (aset types n tag) rest
    | none => (types, some ("type " ++ target ++ " not found"))

/-- The struct-map construction of `NewService`: exceptions first, then structs
(both copied into a fresh map, so structs shadow same-named exceptions). -/
def mergeStructs (th : Thrift) : List (String × StructDef) :=
  th.structs.foldl (fun m p => aset m p.1 p.2)
    (th.exceptions.foldl (fun m p => aset m p.1 p.2) [])

/-- `connector.NewService(parsedThrift, name)`.  `env` is the current contents
of the package-level `defultTypeNameMap`; because `types = defultTypeNameMap`
aliases that map, every overlay mutates it, and the possibly-mutated contents
are returned alongside the result (also on failure). -/
def NewService (env : TypeMap) (th : Thrift) (name : String) :
    TypeMap × Except Failure Service :=
  match alookup th.services name with
  | none => (env, .error (.err ("service " ++ name ++ " not exits.")))
  | some psvc =>
    let structs := mergeStructs th
    let t1 := overlayEnums env th.enums
    let t2 := overlayStructNames t1 (akeys th.structs)
    let t3 := overlayStructNames t2 (akeys th.exceptions)
    match applyTypedefs t3 th.typedefs with
    | (t4, none) => (t4, .ok ⟨psvc, structs⟩)
    | (t4, some msg) => (t4, .error (.err msg))

/-- The schema data the codec consults: the current type-registry contents and
the service's merged struct/exception descriptors (`Service.Structs`). -/
structure Schema : Type where
  types : TypeMap
  structs : List (String × StructDef)

/-- The wire-tag alternatives the codec's Go `switch` statements distinguish
(`kOther` covers every byte value none of them cases on). -/
inductive TKind : Type where
  | kStop | kVoid | kBool | kByte | kDouble | kI16 | kI32 | kI64
  | kString | kStruct | kMap | kSet | kList | kOther
deriving DecidableEq

/-- Tabulated form of the disjoint equality tests a Go `switch` on a
`thrift.TType` performs. -/
def tagKind (tag : Int) : TKind :=
  if tag = TType.STOP then .kStop
  else if tag = TType.VOID then .kVoid
  else if tag = TType.BOOL then .kBool
  else if tag = TType.BYTE then .kByte
  else if tag = TType.DOUBLE then .kDouble
  else if tag = TType.I16 then .kI16
  else if tag = TType.I32 then .kI32
  else if tag = TType.I64 then .kI64
  else if tag = TType.STRING then .kString
  else if tag = TType.STRUCT then .kStruct
  else if tag = TType.MAP then .kMap
  else if tag = TType.SET then .kSet
  else if tag = TType.LIST then .kList
  else .kOther

mutual

/-- `Client.WriteValue` (current revision), with fuel decremented at every
recursive step (the recursion through the schema is unbounded for a recursive
IDL, so the model is fueled; every theorem quantifies the fuel existentially).
Dispatch order and the per-tag coercions follow the Go switch: BOOL and BYTE
and STRING take only values of that exact dynamic type; DOUBLE, I16, I32, I64
coerce via `Float64`/`Int16`/`Int32`/`Int64`; STRUCT/MAP/LIST recurse; any
other tag is unsupported; a failed coercion falls through to the
"cannot convert" error. -/
def writeValue (sch : Schema) : Nat → PType → GoValue → Except Failure (List Tok)
  | 0, _, _ => .error .fuel
  | n + 1, t, v =>
    match tagKind (LookupType sch.types t.name) with
    | .kBool =>
      match v with
      | .vbool b => .ok [.tbool b]
      | _ => .error (.err ("cannot convert to type " ++ t.name ++ "."))
    | .kByte =>
      match v with
      | .vbyte b => .ok [.tbyte b]
      | _ => .error (.err ("cannot convert to type " ++ t.name ++ "."))
    | .kDouble =>
      match goFloat64 v with
      | some q => .ok [.tdouble q]
      | none => .error (.err ("cannot convert to type " ++ t.name ++ "."))
    | .kI16 =>
      match goInt16 v with
      | some m => .ok [.ti16 m]
      | none => .error (.err ("cannot convert to type " ++ t.name ++ "."))
    | .kI32 =>
      match goInt32 v with
      | some m => .ok [.ti32 m]
      | none => .error (.err ("cannot convert to type " ++ t.name ++ "."))
    | .kI64 =>
      match goInt64 v with
      | some m => .ok [.ti64 m]
      | none => .error (.err ("cannot convert to type " ++ t.name ++ "."))
    | .kString =>
      match v with
      | .vstr s => .ok [.tstr s]
      | _ => .error (.err ("cannot convert to type " ++ t.name ++ "."))
    | .kStruct => writeStruct sch n t v
    | .kMap => writeMap sch n t v
    | .kList => writeList sch n t v
    | _ => .error (.err ("unsupported type " ++ t.name))

/-- `Client.WriteStruct`: resolve the descriptor in the merged struct map,
assert the value is a generic mapping, write each declared field that is
present (a missing non-optional field is an error), then the stop byte. -/
def writeStruct (sch : Schema) : Nat → PType → GoValue → Except Failure (List Tok)
  | 0, _, _ => .error .fuel
  | n + 1, t, v =>
    match alookup sch.structs t.name with
    | none => .error (.err ("struct " ++ t.name ++ " not found."))
    | some sd =>
      match v with
      | .vmap kvs =>
        match writeStructFields sch n sd.fields kvs with
        | .error e => .error e
        | .ok toks => .ok (toks ++ [.tbyte TType.STOP])
      | _ => .error (.err "type assertion to map failed.")

/-- The field loop of `WriteStruct`; each written field is
`WriteFieldBegin(name, tag, int16(ID))` then the value (`Client.WriteField`). -/
def writeStructFields (sch : Schema) :
    Nat → List Field → List (String × GoValue) → Except Failure (List Tok)
  | 0, _, _ => .error .fuel
  | _ + 1, [], _ => .ok []
  | n + 1, f :: fs, kvs =>
    match alookup kvs f.name with
    | some sub =>
      match writeValue sch n f.type sub with
      | .error e => .error e
      | .ok vt =>
        match writeStructFields sch n fs kvs with
        | .error e => .error e
        | .ok rest =>
          .ok (.tbyte (LookupType sch.types f.type.name) :: .ti16 (wrap16 f.id) ::
                (vt ++ rest))
    | none =>
      if f.optional then writeStructFields sch n fs kvs
      else .error (.err ("field " ++ f.name ++ " required."))

/-- `Client.WriteMap`: assert a generic mapping, write a map header with the
key tag fixed to STRING and the value tag resolved from the schema, then each
key as a string followed by the value. -/
def writeMap (sch : Schema) : Nat → PType → GoValue → Except Failure (List Tok)
  | 0, _, _ => .error .fuel
  | n + 1, t, v =>
    match v with
    | .vmap kvs =>
      match t.valueType with
      | none => .error (.panicked "nil type reference")
      | some vt =>
        match writeMapItems sch n vt kvs with
        | .error e => .error e
        | .ok body =>
          .ok (.tbyte TType.STRING :: .tbyte (LookupType sch.types vt.name) ::
                .ti32 (Int.ofNat kvs.length) :: body)
    | _ => .error (.err "type assertion to map failed.")

def writeMapItems (sch : Schema) :
    Nat → PType → List (String × GoValue) → Except Failure (List Tok)
  | 0, _, _ => .error .fuel
  | _ + 1, _, [] => .ok []
  | n + 1, vt, (k, x) :: rest =>
    match writeValue sch n vt x with
    | .error e => .error e
    | .ok xt =>
      match writeMapItems sch n vt rest with
      | .error e => .error e
      | .ok rt => .ok (.tstr k :: (xt ++ rt))

/-- `Client.WriteList`: assert a generic sequence, write a list header with the
resolved element tag and the length, then each element. -/
def writeList (sch : Schema) : Nat → PType → GoValue → Except Failure (List Tok)
  | 0, _, _ => .error .fuel
  | n + 1, t, v =>
    match v with
    | .vlist xs =>
      match t.valueType with
      | none => .error (.panicked "nil type reference")
      | some vt =>
        match writeListItems sch n vt xs with
        | .error e => .error e
        | .ok body =>
          .ok (.tbyte (LookupType sch.types vt.name) :: .ti32 (Int.ofNat xs.length) :: body)
    | _ => .error (.err "type assertion to list failed.")

def writeListItems (sch : Schema) :
    Nat → PType → List GoValue → Except Failure (List Tok)
  | 0, _, _ => .error .fuel
  | _ + 1, _, [] => .ok []
  | n + 1, vt, x :: rest =>
    match writeValue sch n vt x with
    | .error e => .error e
    | .ok xt =>
      match writeListItems sch n vt rest with
      | .error e => .error e
      | .ok rt => .ok (xt ++ rt)

end

mutual

/-- The transform the round-trip property asserts: the identity on `v`, except
that struct keys not declared in the schema are dropped (and struct keys are
listed in declaration order — Go map equality is order-blind), and numeric
values are coerced to the wire width demanded by the type reference. -/
def normV (sch : Schema) : Nat → PType → GoValue → Option GoValue
  | 0, _, _ => none
  | n + 1, t, v =>
    match tagKind (LookupType sch.types t.name) with
    | .kBool =>
      match v with
      | .vbool b => some (.vbool b)
      | _ => none
    | .kByte =>
      match v with
      | .vbyte b => some (.vbyte b)
      | _ => none
    | .kDouble => (goFloat64 v).map .vdouble
    | .kI16 => (goInt16 v).map .vi16
    | .kI32 => (goInt32 v).map .vi32
    | .kI64 => (goInt64 v).map .vi64
    | .kString =>
      match v with
      | .vstr s => some (.vstr s)
      | _ => none
    | .kStruct =>
      match alookup sch.structs t.name with
      | none => none
      | some sd =>
        match v with
        | .vmap kvs => (normFields sch n sd.fields kvs).map .vmap
        | _ => none
    | .kMap =>
      match t.valueType with
      | none => none
      | some vt =>
        match v with
        | .vmap kvs => (normKVs sch n vt kvs).map .vmap
        | _ => none
    | .kList =>
      match t.valueType with
      | none => none
      | some vt =>
        match v with
        | .vlist xs => (normElems sch n vt xs).map .vlist
        | _ => none
    | _ => none

def normFields (sch : Schema) :
    Nat → List Field → List (String × GoValue) → Option (List (String × GoValue))
  | 0, _, _ => none
  | _ + 1, [], _ => some []
  | n + 1, f :: fs, kvs =>
    match alookup kvs f.name with
    | some sub =>
      match normV sch n f.type sub, normFields sch n fs kvs with
      | some w, some rest => some ((f.name, w) :: rest)
      | _, _ => none
    | none => if f.optional then normFields sch n fs kvs else none

def normKVs (sch : Schema) :
    Nat → PType → List (String × GoValue) → Option (List (String × GoValue))
  | 0, _, _ => none
  | _ + 1, _, [] => some []
  | n + 1, vt, (k, x) :: rest =>
    match normV sch n vt x, normKVs sch n vt rest with
    | some w, some ws => some ((k, w) :: ws)
    | _, _ => none

def normElems (sch : Schema) : Nat → PType → List GoValue → Option (List GoValue)
  | 0, _, _ => none
  | _ + 1, _, [] => some []
  | n + 1, vt, x :: rest =>
    match normV sch n vt x, normElems sch n vt rest with
    | some w, some ws => some (w :: ws)
    | _, _ => none

end

/-- `TBinaryProtocol.ReadFieldBegin`: read the type byte; `0` is the stop
marker (field id reported as `0`); otherwise read the i16 field id. -/
def readFieldBegin : List Tok → Except Failure (Int × Int × List Tok)
  | .tbyte t :: rest =>
    if t = TType.STOP then .ok (TType.STOP, 0, rest)
    else
      match rest with
      | .ti16 i :: rest2 => .ok (t, i, rest2)
      | _ => .error (.err "read field id")
  | _ => .error (.err "read field begin")

/-- `TBinaryProtocol.ReadMapBegin`: key tag byte, value tag byte, size i32. -/
def readMapBegin : List Tok → Except Failure (Int × Int × Int × List Tok)
  | .tbyte kt :: .tbyte vt :: .ti32 size :: r => .ok (kt, vt, size, r)
  | _ => .error (.err "read map begin")

/-- `TBinaryProtocol.ReadListBegin` (also used for sets): element tag byte,
size i32. -/
def readListBegin : List Tok → Except Failure (Int × Int × List Tok)
  | .tbyte et :: .ti32 size :: r => .ok (et, size, r)
  | _ => .error (.err "read list begin")

mutual

/-- `thrift.Skip` (the external codec's skip operation, reached through
`client.InputProtocol.Skip`): consume and discard one value of the given wire
tag; recursion is fuel-bounded like the library's `maxDepth`.  A tag it cannot
consume (an unknown tag, or data not matching the tag) is an error that
consumes nothing. -/
def skipValue : Nat → Int → List Tok → Except Failure (List Tok)
  | 0, _, _ => .error .fuel
  | n + 1, tag, toks =>
    match tagKind tag with
    | .kStop => .ok toks
    | .kBool =>
      match toks with
      | .tbool _ :: r => .ok r
      | _ => .error (.err "skip bool")
    | .kByte =>
      match toks with
      | .tbyte _ :: r => .ok r
      | _ => .error (.err "skip byte")
    | .kI16 =>
      match toks with
      | .ti16 _ :: r => .ok r
      | _ => .error (.err "skip i16")
    | .kI32 =>
      match toks with
      | .ti32 _ :: r => .ok r
      | _ => .error (.err "skip i32")
    | .kI64 =>
      match toks with
      | .ti64 _ :: r => .ok r
      | _ => .error (.err "skip i64")
    | .kDouble =>
      match toks with
      | .tdouble _ :: r => .ok r
      | _ => .error (.err "skip double")
    | .kString =>
      match toks with
      | .tstr _ :: r => .ok r
      | _ => .error (.err "skip string")
    | .kStruct => skipFields n toks
    | .kMap =>
      match readMapBegin toks with
      | .error e => .error e
      | .ok (kt, vt, size, r) => skipMapItems n kt vt size.toNat r
    | .kSet =>
      match readListBegin toks with
      | .error e => .error e
      | .ok (et, size, r) => skipListItems n et size.toNat r
    | .kList =>
      match readListBegin toks with
      | .error e => .error e
      | .ok (et, size, r) => skipListItems n et size.toNat r
    | _ => .error (.err "unknown type tag")

def skipFields : Nat → List Tok → Except Failure (List Tok)
  | 0, _ => .error .fuel
  | n + 1, toks =>
    match readFieldBegin toks with
    | .error e => .error e
    | .ok (ft, _, r) =>
      if ft = TType.STOP then .ok r
      else
        match skipValue n ft r with
        | .error e => .error e
        | .ok r2 => skipFields n r2

def skipMapItems : Nat → Int → Int → Nat → List Tok → Except Failure (List Tok)
  | 0, _, _, _, _ => .error .fuel
  | _ + 1, _, _, 0, toks => .ok toks
  | n + 1, kt, vt, k + 1, toks =>
    match skipValue n kt toks with
    | .error e => .error e
    | .ok r =>
      match skipValue n vt r with
      | .error e => .error e
      | .ok r2 => skipMapItems n kt vt k r2

def skipListItems : Nat → Int → Nat → List Tok → Except Failure (List Tok)
  | 0, _, _, _ => .error .fuel
  | _ + 1, _, 0, toks => .ok toks
  | n + 1, et, k + 1, toks =>
    match skipValue n et toks with
    | .error e => .error e
    | .ok r => skipListItems n et k r

end

/-- The field-descriptor scan of `ReadStruct`: first declared field whose `ID`
equals the header's index. -/
def findFieldById : List Field → Int → Option Field
  | [], _ => none
  | f :: fs, idx => if f.id = idx then some f else findFieldById fs idx

mutual

/-- `Client.ReadValue` (current revision): dispatch on the resolved tag;
primitives pop one token, STRUCT/MAP/LIST recurse, STOP reads nothing and
returns Go `nil`, anything else is unsupported. -/
def readValue (sch : Schema) : Nat → PType → List Tok → Except Failure (GoValue × List Tok)
  | 0, _, _ => .error .fuel
  | n + 1, t, toks =>
    match tagKind (LookupType sch.types t.name) with
    | .kBool =>
      match toks with
      | .tbool b :: r => .ok (.vbool b, r)
      | _ => .error (.err "read bool")
    | .kByte =>
      match toks with
      | .tbyte b :: r => .ok (.vbyte b, r)
      | _ => .error (.err "read byte")
    | .kDouble =>
      match toks with
      | .tdouble q :: r => .ok (.vdouble q, r)
      | _ => .error (.err "read double")
    | .kI16 =>
      match toks with
      | .ti16 m :: r => .ok (.vi16 m, r)
      | _ => .error (.err "read i16")
    | .kI32 =>
      match toks with
      | .ti32 m :: r => .ok (.vi32 m, r)
      | _ => .error (.err "read i32")
    | .kI64 =>
      match toks with
      | .ti64 m :: r => .ok (.vi64 m, r)
      | _ => .error (.err "read i64")
    | .kString =>
      match toks with
      | .tstr s :: r => .ok (.vstr s, r)
      | _ => .error (.err "read string")
    | .kStruct => readStruct sch n t toks
    | .kMap => readMap sch n t toks
    | .kList => readList sch n t toks
    | .kStop => .ok (.vnil, toks)
    | _ => .error (.err ("unsupported type " ++ t.name))

/-- `Client.ReadStruct` (current revision): resolve the descriptor in the
merged struct map, then loop over field headers until the stop marker.  The
source discards the error of `ReadStructBegin` (empty `if` body) — a no-op in
the binary protocol — so no token is consumed here. -/
def readStruct (sch : Schema) : Nat → PType → List Tok → Except Failure (GoValue × List Tok)
  | 0, _, _ => .error .fuel
  | n + 1, t, toks =>
    match alookup sch.structs t.name with
    | none => .error (.err ("struct " ++ t.name ++ " not found."))
    | some sd =>
      match readStructFields sch n sd [] toks with
      | .error e => .error e
      | .ok (m, r) => .ok (.vmap m, r)

/-- The field loop of `ReadStruct`: read a header; stop ends the loop; a
header index matching no declared field ID is skipped — and the source
discards `Skip`'s error (`client.InputProtocol.Skip(thriftType)` with the
result ignored), so on a failed skip the loop continues at the same position;
a declared field is read recursively and stored under the declared name.
Only genuine protocol errors are discarded; exhaustion of the model's
artificial fuel (which is no Go error) aborts the run. -/
def readStructFields (sch : Schema) :
    Nat → StructDef → List (String × GoValue) → List Tok →
    Except Failure (List (String × GoValue) × List Tok)
  | 0, _, _, _ => .error .fuel
  | n + 1, sd, acc, toks =>
    match readFieldBegin toks with
    | .error e => .error e
    | .ok (ft, idx, r) =>
      if ft = TType.STOP then .ok (acc, r)
      else
        match findFieldById sd.fields idx with
        | none =>
          match skipValue n ft r with
          | .ok r2 => readStructFields sch n sd acc r2
          | .error .fuel => .error .fuel
          | .error _ => readStructFields sch n sd acc r
        | some f =>
          match readValue sch n f.type r with
          | .error e => .error e
          | .ok (v, r2) => readStructFields sch n sd (aset acc f.name v) r2

/-- `Client.ReadMap` (current revision): read the map header (key and value
tags are ignored), then `size` pairs of a string key and a schema-typed value.
A `nil` `ValueType` dereferenced by the recursive `ReadValue` call is a panic. -/
def readMap (sch : Schema) : Nat → PType → List Tok → Except Failure (GoValue × List Tok)
  | 0, _, _ => .error .fuel
  | n + 1, t, toks =>
    match readMapBegin toks with
    | .error e => .error e
    | .ok (_, _, size, r) =>
      match readMapItems sch n t.valueType size.toNat [] r with
      | .error e => .error e
      | .ok (m, r2) => .ok (.vmap m, r2)

def readMapItems (sch : Schema) :
    Nat → Option PType → Nat → List (String × GoValue) → List Tok →
    Except Failure (List (String × GoValue) × List Tok)
  | 0, _, _, _, _ => .error .fuel
  | _ + 1, _, 0, acc, toks => .ok (acc, toks)
  | n + 1, vt, k + 1, acc, toks =>
    match toks with
    | .tstr key :: r =>
      match vt with
      | none => .error (.panicked "nil type reference")
      | some vt0 =>
        match readValue sch n vt0 r with
        | .error e => .error e
        | .ok (v, r2) => readMapItems sch n vt k (aset acc key v) r2
    | _ => .error (.err "read string")

/-- `Client.ReadList` (current revision): read the list header (element tag is
ignored), then `size` schema-typed elements in order. -/
def readList (sch : Schema) : Nat → PType → List Tok → Except Failure (GoValue × List Tok)
  | 0, _, _ => .error .fuel
  | n + 1, t, toks =>
    match readListBegin toks with
    | .error e => .error e
    | .ok (_, size, r) =>
      match readListItems sch n t.valueType size.toNat r with
      | .error e => .error e
      | .ok (xs, r2) => .ok (.vlist xs, r2)

def readListItems (sch : Schema) :
    Nat → Option PType → Nat → List Tok → Except Failure (List GoValue × List Tok)
  | 0, _, _, _ => .error .fuel
  | _ + 1, _, 0, toks => .ok ([], toks)
  | n + 1, vt, k + 1, toks =>
    match vt with
    | none => .error (.panicked "nil type reference")
    | some vt0 =>
      match readValue sch n vt0 toks with
      | .error e => .error e
      | .ok (v, r) =>
        match readListItems sch n vt k r with
        | .error e => .error e
        | .ok (vs, r2) => .ok (v :: vs, r2)

end

/-- Go slice indexing `xs[i]`: out of range (including negative) is a panic,
modelled as `none`. -/
def goIdx {α : Type} (xs : List α) (i : Int) : Option α :=
  if i < 0 then none else xs.get? i.toNat

/-- `connector.Client` (current revision): a session's mutable state.  The
transport and the protocol codecs are represented by the token streams the
operations below consume and produce; the `Service` reference carries the
schema, and the registry contents are passed explicitly (see `Service`). -/
structure Client : Type where
  seqId : Int
  service : Service

/-- The argument loop of `Client.WriteRequest`: each declared argument is
matched to the caller-supplied positional argument at `ID - 1`; too few
arguments is an error (and a non-positive ID would index out of range). -/
def writeArgsLoop (sch : Schema) (n : Nat) :
    List Field → List GoValue → Except Failure (List Tok)
  | [], _ => .ok []
  | f :: fs, args =>
    if f.id > Int.ofNat args.length then
      .error (.err ("No." ++ toString f.id ++ " arg " ++ f.name ++ " not exits."))
    else
      match goIdx args (f.id - 1) with
      | none => .error (.panicked "index out of range")
      | some arg =>
        match writeValue sch n f.type arg with
        | .error e => .error e
        | .ok vtoks =>
          match writeArgsLoop sch n fs args with
          | .error e => .error e
          | .ok rest =>
            .ok (.tbyte (LookupType sch.types f.type.name) :: .ti16 (wrap16 f.id) ::
                  (vtoks ++ rest))

/-- `Client.WriteRequest` (current revision): resolve the method, write the
synthetic request struct of its declared arguments, then the field stop. -/
def Client.writeRequest (c : Client) (g : TypeMap) (n : Nat) (methodName : String)
    (args : List GoValue) : Except Failure (List Tok) :=
  match alookup c.service.base.methods methodName with
  | none =>
    .error (.err ("method " ++ c.service.base.name ++ "." ++ methodName ++ " not exits."))
  | some method =>
    match writeArgsLoop ⟨g, c.service.structs⟩ n method.arguments args with
    | .error e => .error e
    | .ok body => .ok (body ++ [.tbyte TType.STOP])

/-- `Client.send` (pointer receiver): increment the session's `SeqId` (an
`int32`), write the message envelope (method name, CALL, sequence id), the
request struct, message end, and flush.  Returns the updated client and the
flushed tokens; nothing is flushed if a write step fails. -/
def Client.send (c : Client) (g : TypeMap) (n : Nat) (method : String)
    (args : List GoValue) : Client × Except Failure (List Tok) :=
  let c1 : Client := { c with seqId := wrap32 (c.seqId + 1) }
  match c1.writeRequest g n method args with
  | .error e => (c1, .error e)
  | .ok body => (c1, .ok (.tmsg method MType.CALL c1.seqId :: body))

/-- The field loop of `thrift.TApplicationException.Read` (external codec):
field 1 as STRING is the message, field 2 as I32 is the type id, anything else
is skipped, until the stop marker. -/
def appExcFields (n : Nat) :
    Nat → Int → String → List Tok → Except Failure (Int × String × List Tok)
  | 0, _, _, _ => .error .fuel
  | b + 1, ty, msg, toks =>
    match readFieldBegin toks with
    | .error e => .error e
    | .ok (ft, idx, r) =>
      if ft = TType.STOP then .ok (ty, msg, r)
      else if idx = 1 ∧ ft = TType.STRING then
        match r with
        | .tstr s :: r2 => appExcFields n b ty s r2
        | _ => .error (.err "read string")
      else if idx = 2 ∧ ft = TType.I32 then
        match r with
        | .ti32 m :: r2 => appExcFields n b m msg r2
        | _ => .error (.err "read i32")
      else
        match skipValue n ft r with
        | .error e => .error e
        | .ok r2 => appExcFields n b ty msg r2

/-- `thrift.TApplicationException.Read`: decode the generic exception struct
carried by an EXCEPTION message. -/
def appExcRead (n : Nat) (toks : List Tok) : Except Failure (Int × String × List Tok) :=
  appExcFields n (toks.length + 1) UNKNOWN_APPLICATION_EXCEPTION "" toks

/-- The outcome of `ReadResponse`'s dispatch on the response struct's first
field index. -/
inductive RSel : Type where
  | ret : RSel
  | exc (f : Field) : RSel
  | outOfRange : RSel
  | viol : RSel

/-- The field-index dispatch of `Client.ReadResponse` (current revision):
index `0` selects the declared return type; otherwise, when
`int(index) <= len(method.Exceptions)` the code evaluates
`method.Exceptions[index-1]` — for a negative index this is an out-of-bounds
slice access (a Go panic), not an error return; only an index strictly greater
than the exception count reaches the protocol-violation error branch. -/
def respFieldSel (method : Method) (index : Int) : RSel :=
  if index = 0 then .ret
  else if index ≤ Int.ofNat method.exceptions.length then
    match goIdx method.exceptions (index - 1) with
    | some f => .exc f
    | none => .outOfRange
  else .viol

/-- `Client.ReadResponse` (current revision): resolve the method, read one
field header, decode the single field selected by its index (return value at
`0`, declared exception at `1..N` — the decoded exception is returned in the
value position), then read exactly one more field header (its content is
discarded and not inspected; the code assumes it is the stop marker and does
not loop) and close the struct frame. -/
def readResponse (svc : Service) (g : TypeMap) (n : Nat) (methodName : String)
    (toks : List Tok) : Except Failure (GoValue × List Tok) :=
  match alookup svc.base.methods methodName with
  | none =>
    .error (.err ("method " ++ svc.base.name ++ "." ++ methodName ++ " not exits."))
  | some method =>
    match readFieldBegin toks with
    | .error e => .error e
    | .ok (_, index, r) =>
      let sel :=
        match respFieldSel method index with
        | .ret => Except.ok method.returnType
        | .exc f => Except.ok f.type
        | .outOfRange => Except.error (Failure.panicked "index out of range")
        | .viol => Except.error (Failure.err ("method " ++ methodName ++ " index not exits."))
      match sel with
      | .error e => .error e
      | .ok ftype =>
        match readValue ⟨g, svc.structs⟩ n ftype r with
        | .error e => .error e
        | .ok (v, r2) =>
          match readFieldBegin r2 with
          | .error e => .error e
          | .ok (_, _, r3) => .ok (v, r3)

/-- `Client.recv` (pointer receiver): read the message envelope; an EXCEPTION
message decodes an application exception and returns it as the call's error; a
response sequence id different from the session's counter is a
BAD_SEQUENCE_ID application exception with no value; otherwise the response
struct is decoded by `ReadResponse` (dispatched on the method name carried by
the response) and message end is read. -/
def Client.recv (c : Client) (g : TypeMap) (n : Nat) (input : List Tok) :
    Except Failure (GoValue × List Tok) :=
  match input with
  | .tmsg methodName typeId seqId :: r =>
    if typeId = MType.EXCEPTION then
      match appExcRead n r with
      | .error e => .error e
      | .ok (ty, msg, _) => .error (.appExc ty msg)
    else if c.seqId ≠ seqId then
      .error (.appExc BAD_SEQUENCE_ID "Response out of sequence")
    else readResponse c.service g n methodName r
  | _ => .error (.err "read message begin")

/-- `Client.Call`.  In the source `Call` has a VALUE receiver while `send` and
`recv` have pointer receivers: `client.send` mutates only `Call`'s local copy
of the client, so the caller's client — including its `SeqId` — is unchanged
when `Call` returns.  The model mirrors this: `Call` takes the client by value
and returns no updated client, only the call's result and the tokens written. -/
def Client.Call (c : Client) (g : TypeMap) (n : Nat) (method : String)
    (args : List GoValue) (input : List Tok) :
    Except Failure (GoValue × List Tok) × List Tok :=
  match c.send g n method args with
  | (_, .error e) => (.error e, [])
  | (c1, .ok out) => (c1.recv g n input, out)

mutual

/-- Schema validity of a generic value at a type reference: exactly the value
shapes `WriteValue` accepts at that type (the round-trip property quantifies
over these).  Numeric tags accept whatever the corresponding coercion
(`Int16`/`Int32`/`Int64`/`Float64`) accepts; BOOL/BYTE/STRING accept only that
exact dynamic type; STRUCT requires a mapping supplying every non-optional
declared field with a valid value; MAP requires a mapping with distinct keys
and valid values; LIST a sequence of valid elements. -/
inductive SV : Schema → PType → GoValue → Prop where
  | bool (sch : Schema) (t : PType) (b : Bool) :
      LookupType sch.types t.name = TType.BOOL → SV sch t (.vbool b)
  | byte (sch : Schema) (t : PType) (n : Int) :
      LookupType sch.types t.name = TType.BYTE → SV sch t (.vbyte n)
  | double (sch : Schema) (t : PType) (v : GoValue) (q : Rat) :
      LookupType sch.types t.name = TType.DOUBLE → goFloat64 v = some q → SV sch t v
  | i16 (sch : Schema) (t : PType) (v : GoValue) (m : Int) :
      LookupType sch.types t.name = TType.I16 → goInt16 v = some m → SV sch t v
  | i32 (sch : Schema) (t : PType) (v : GoValue) (m : Int) :
      LookupType sch.types t.name = TType.I32 → goInt32 v = some m → SV sch t v
  | i64 (sch : Schema) (t : PType) (v : GoValue) (m : Int) :
      LookupType sch.types t.name = TType.I64 → goInt64 v = some m → SV sch t v
  | str (sch : Schema) (t : PType) (s : String) :
      LookupType sch.types t.name = TType.STRING → SV sch t (.vstr s)
  | strct (sch : Schema) (t : PType) (sd : StructDef) (kvs : List (String × GoValue)) :
      LookupType sch.types t.name = TType.STRUCT → alookup sch.structs t.name = some sd →
      SVFields sch sd.fields kvs → SV sch t (.vmap kvs)
  | map (sch : Schema) (t : PType) (vt : PType) (kvs : List (String × GoValue)) :
      LookupType sch.types t.name = TType.MAP → t.valueType = some vt →
      (akeys kvs).Nodup → SVKVs sch vt kvs → SV sch t (.vmap kvs)
  | list (sch : Schema) (t : PType) (vt : PType) (xs : List GoValue) :
      LookupType sch.types t.name = TType.LIST → t.valueType = some vt →
      SVElems sch vt xs → SV sch t (.vlist xs)

/-- Validity of a mapping against a list of declared struct fields. -/
inductive SVFields : Schema → List Field → List (String × GoValue) → Prop where
  | nil (sch : Schema) (kvs : List (String × GoValue)) : SVFields sch [] kvs
  | present (sch : Schema) (f : Field) (fs : List Field)
      (kvs : List (String × GoValue)) (sub : GoValue) :
      alookup kvs f.name = some sub → SV sch f.type sub →
      SVFields sch fs kvs → SVFields sch (f :: fs) kvs
  | absent (sch : Schema) (f : Field) (fs : List Field) (kvs : List (String × GoValue)) :
      alookup kvs f.name = none → f.optional = true →
      SVFields sch fs kvs → SVFields sch (f :: fs) kvs

/-- Validity of every value of a generic mapping at the map's value type. -/
inductive SVKVs : Schema → PType → List (String × GoValue) → Prop where
  | nil (sch : Schema) (vt : PType) : SVKVs sch vt []
  | cons (sch : Schema) (vt : PType) (k : String) (x : GoValue)
      (rest : List (String × GoValue)) :
      SV sch vt x → SVKVs sch vt rest → SVKVs sch vt ((k, x) :: rest)

/-- Validity of every element of a generic sequence at the list's value type. -/
inductive SVElems : Schema → PType → List GoValue → Prop where
  | nil (sch : Schema) (vt : PType) : SVElems sch vt []
  | cons (sch : Schema) (vt : PType) (x : GoValue) (rest : List GoValue) :
      SV sch vt x → SVElems sch vt rest → SVElems sch vt (x :: rest)

end

/-- Well-formedness of one struct descriptor: declared field names and ids are
pairwise distinct, and ids fit in an int16 (`WriteFieldBegin` truncates the id
to int16 on the wire, and `ReadStruct` matches descriptors on the read-back
value). -/
def WFStruct (sd : StructDef) : Prop :=
  sd.fields.Pairwise (fun a b => a.name ≠ b.name ∧ a.id ≠ b.id) ∧
  ∀ f ∈ sd.fields, -(2 ^ 15) ≤ f.id ∧ f.id < 2 ^ 15

/-- Well-formedness of every struct descriptor reachable by name. -/
def WFSchema (sch : Schema) : Prop :=
  ∀ nm sd, alookup sch.structs nm = some sd → WFStruct sd

/-- The round-trip property of one value at one type reference: some token list
and normalized value exist such that, for all sufficient fuel, `WriteValue`
produces the tokens, `normV` the normalized value, and `ReadValue` consumes
exactly those tokens from any stream and returns the normalized value. -/
def RT (sch : Schema) (t : PType) (v : GoValue) : Prop :=
  ∃ toks v' n, ∀ m, n ≤ m →
    writeValue sch m t v = .ok toks ∧ normV sch m t v = some v' ∧
    ∀ rest, readValue sch m t (toks ++ rest) = .ok (v', rest)

/-- A well-formed wire-level value of some wire tag: what a conforming peer
may place in a field this client's schema does not declare, and what the
codec's skip operation consumes.  Container constructors carry the element
tags their headers announce. -/
inductive WireVal : Type where
  | wbool (b : Bool) : WireVal
  | wbyte (n : Int) : WireVal
  | wi16 (n : Int) : WireVal
  | wi32 (n : Int) : WireVal
  | wi64 (n : Int) : WireVal
  | wdouble (q : Rat) : WireVal
  | wstr (s : String) : WireVal
  | wstruct (flds : List (Int × WireVal)) : WireVal
  | wmap (kt vt : Int) (prs : List (WireVal × WireVal)) : WireVal
  | wlist (et : Int) (elems : List WireVal) : WireVal
  | wset (et : Int) (elems : List WireVal) : WireVal

/-- The wire tag a `WireVal` is encoded under. -/
def wtag : WireVal → Int
  | .wbool _ => TType.BOOL
  | .wbyte _ => TType.BYTE
  | .wi16 _ => TType.I16
  | .wi32 _ => TType.I32
  | .wi64 _ => TType.I64
  | .wdouble _ => TType.DOUBLE
  | .wstr _ => TType.STRING
  | .wstruct _ => TType.STRUCT
  | .wmap _ _ _ => TType.MAP
  | .wlist _ _ => TType.LIST
  | .wset _ _ => TType.SET

mutual

/-- Token encoding of a wire-level value (binary protocol layout). -/
def encodeWv : WireVal → List Tok
  | .wbool b => [.tbool b]
  | .wbyte n => [.tbyte n]
  | .wi16 n => [.ti16 n]
  | .wi32 n => [.ti32 n]
  | .wi64 n => [.ti64 n]
  | .wdouble q => [.tdouble q]
  | .wstr s => [.tstr s]
  | .wstruct flds => encodeWvFields flds ++ [.tbyte TType.STOP]
  | .wmap kt vt prs =>
    .tbyte kt :: .tbyte vt :: .ti32 (Int.ofNat prs.length) :: encodeWvPairs prs
  | .wlist et elems =>
    .tbyte et :: .ti32 (Int.ofNat elems.length) :: encodeWvElems elems
  | .wset et elems =>
    .tbyte et :: .ti32 (Int.ofNat elems.length) :: encodeWvElems elems

def encodeWvFields : List (Int × WireVal) → List Tok
  | [] => []
  | (id, w) :: rest => .tbyte (wtag w) :: .ti16 id :: (encodeWv w ++ encodeWvFields rest)

def encodeWvPairs : List (WireVal × WireVal) → List Tok
  | [] => []
  | (k, v) :: rest => encodeWv k ++ encodeWv v ++ encodeWvPairs rest

def encodeWvElems : List WireVal → List Tok
  | [] => []
  | w :: rest => encodeWv w ++ encodeWvElems rest

end

mutual

/-- Well-formedness of a wire value: container headers announce the tags their
contents actually carry. -/
inductive WFw : WireVal → Prop where
  | wbool (b : Bool) : WFw (.wbool b)
  | wbyte (n : Int) : WFw (.wbyte n)
  | wi16 (n : Int) : WFw (.wi16 n)
  | wi32 (n : Int) : WFw (.wi32 n)
  | wi64 (n : Int) : WFw (.wi64 n)
  | wdouble (q : Rat) : WFw (.wdouble q)
  | wstr (s : String) : WFw (.wstr s)
  | wstruct (flds : List (Int × WireVal)) : WFwFields flds → WFw (.wstruct flds)
  | wmap (kt vt : Int) (prs : List (WireVal × WireVal)) :
      WFwPairs kt vt prs → WFw (.wmap kt vt prs)
  | wlist (et : Int) (elems : List WireVal) : WFwElems et elems → WFw (.wlist et elems)
  | wset (et : Int) (elems : List WireVal) : WFwElems et elems → WFw (.wset et elems)

inductive WFwFields : List (Int × WireVal) → Prop where
  | nil : WFwFields []
  | cons (id : Int) (w : WireVal) (rest : List (Int × WireVal)) :
      WFw w → WFwFields rest → WFwFields ((id, w) :: rest)

inductive WFwPairs : Int → Int → List (WireVal × WireVal) → Prop where
  | nil (kt vt : Int) : WFwPairs kt vt []
  | cons (kt vt : Int) (k v : WireVal) (rest : List (WireVal × WireVal)) :
      wtag k = kt → wtag v = vt → WFw k → WFw v → WFwPairs kt vt rest →
      WFwPairs kt vt ((k, v) :: rest)

inductive WFwElems : Int → List WireVal → Prop where
  | nil (et : Int) : WFwElems et []
  | cons (et : Int) (w : WireVal) (rest : List WireVal) :
      wtag w = et → WFw w → WFwElems et rest → WFwElems et (w :: rest)

end

/-- One field of a struct payload as it arrives on the wire: either a field
declared in the descriptor carrying a schema-valid value, or a field with an
index the descriptor does not declare, carrying an arbitrary well-formed wire
payload. -/
inductive FieldItem : Type where
  | known (f : Field) (v : GoValue) : FieldItem
  | unknown (id : Int) (w : WireVal) : FieldItem

/-- Token encoding of a struct payload body given as a list of `FieldItem`s
(no trailing stop marker): known fields are encoded exactly as `WriteValue`
would encode them, unknown fields carry their own wire tag and id. -/
def encodeItems (sch : Schema) (n : Nat) : List FieldItem → Except Failure (List Tok)
  | [] => .ok []
  | .known f v :: rest =>
    match writeValue sch n f.type v with
    | .error e => .error e
    | .ok vtoks =>
      match encodeItems sch n rest with
      | .error e => .error e
      | .ok rtoks =>
        .ok (.tbyte (LookupType sch.types f.type.name) :: .ti16 (wrap16 f.id) ::
              (vtoks ++ rtoks))
  | .unknown id w :: rest =>
    match encodeItems sch n rest with
    | .error e => .error e
    | .ok rtoks => .ok (.tbyte (wtag w) :: .ti16 id :: (encodeWv w ++ rtoks))

/-- The mapping a struct payload decodes to: known fields under their declared
names with normalized values, unknown fields absent. -/
def normItems (sch : Schema) (n : Nat) : List FieldItem → Option (List (String × GoValue))
  | [] => some []
  | .known f v :: rest =>
    match normV sch n f.type v, normItems sch n rest with
    | some w, some ws => some ((f.name, w) :: ws)
    | _, _ => none
  | .unknown _ _ :: rest => normItems sch n rest

/-- The declared names a list of payload items stores values under. -/
def knownNames : List FieldItem → List String
  | [] => []
  | .known f _ :: rest => f.name :: knownNames rest
  | .unknown _ _ :: rest => knownNames rest

/- Concrete fixtures used by witness and counterexample theorems. -/

/-- Example struct: a required i64 field `x` and an optional i16 field `y`. -/
def pairSD : StructDef := ⟨"Pair", [⟨1, "x", false, .base "i64"⟩, ⟨2, "y", true, .base "i16"⟩]⟩

/-- Example exception struct with a single string field. -/
def errSD : StructDef := ⟨"Err", [⟨1, "msg", false, .base "string"⟩]⟩

/-- Registry contents after the `NewService` overlays for the example schema. -/
def exReg : TypeMap :=
  aset (aset defultTypeNameMap "Pair" TType.STRUCT) "Err" TType.STRUCT

/-- Example codec schema: the registry and the merged struct map. -/
def exSchema : Schema := ⟨exReg, [("Pair", pairSD), ("Err", errSD)]⟩

/-- Example method: no arguments, i64 return, one declared exception `Err`. -/
def pingMethod : Method := ⟨"ping", .base "i64", [], [⟨1, "e", false, .base "Err"⟩]⟩

/-- Example resolved service. -/
def exService : Service :=
  ⟨⟨"S", [("ping", pingMethod)]⟩, [("Pair", pairSD), ("Err", errSD)]⟩

/-- A fresh example session. -/
def exClient : Client := ⟨0, exService⟩

/-- A schema-valid `Pair` value with an extra undeclared key. -/
def exPairVal : GoValue :=
  .vmap [("y", .vstr "7"), ("x", .vi32 5), ("junk", .vbool true)]

/-- A well-formed reply to `ping` carrying the given sequence id. -/
def exReply (seq : Int) : List Tok :=
  [.tmsg "ping" MType.REPLY seq, .tbyte TType.I64, .ti16 0, .ti64 42, .tbyte TType.STOP]

/-- An IDL document with a single typedef `MyId -> i64`. -/
def thMyId : Thrift := ⟨[("S", ⟨"S", []⟩)], [], [], [], [("MyId", "i64")]⟩

/-- An IDL document with a typedef whose target resolves to nothing. -/
def thBadTypedef : Thrift := ⟨[("S", ⟨"S", []⟩)], [], [], [], [("Bad", "NoSuch")]⟩

/-- An IDL document defining nothing beyond an empty service. -/
def thEmpty : Thrift := ⟨[("S", ⟨"S", []⟩)], [], [], [], []⟩

/-- An IDL document (for a second service) declaring the enum `Color`. -/
def thColor : Thrift := ⟨[("S2", ⟨"S2", []⟩)], [], [], ["Color"], []⟩

/-- An example struct payload: the declared field `x` with a valid value
followed by a field with the undeclared index `9` carrying a bool payload. -/
def exItems : List FieldItem :=
  [.known ⟨1, "x", false, .base "i64"⟩ (.vi64 7), .unknown 9 (.wbool true)]

lemma wrap16_eq_self {x : Int} (h1 : -(2 ^ 15) ≤ x) (h2 : x < 2 ^ 15) :
    wrap16 x = x := by
  unfold wrap16
  rw [Int.emod_eq_of_lt (by omega) (by omega)]
  omega

lemma alookup_aset_self {α : Type} (m : List (String × α)) (k : String) (v : α) :
    alookup (aset m k v) k = some v := by
  induction m with
  | nil => simp [aset, alookup]
  | cons p rest ih =>
    by_cases h : p.1 = k
    · simp [aset, h, alookup]
    · simp [aset, h, alookup, ih]

lemma alookup_aset_ne {α : Type} (m : List (String × α)) (k k' : String) (v : α)
    (h : k ≠ k') : alookup (aset m k v) k' = alookup m k' := by
  induction m with
  | nil => simp [aset, alookup, h]
  | cons p rest ih =>
    by_cases hp : p.1 = k
    · simp [aset, hp, alookup, h]
    · simp [aset, hp, alookup, ih]

/-- Assigning a fresh key appends the binding. -/
lemma aset_fresh {α : Type} (m : List (String × α)) (k : String) (v : α)
    (h : alookup m k = none) : aset m k v = m ++ [(k, v)] := by
  induction m with
  | nil => simp [aset]
  | cons p rest ih =>
    by_cases hp : p.1 = k
    · simp [alookup, hp] at h
    · simp only [alookup, if_neg hp] at h
      simp [aset, hp, ih h]

lemma findFieldById_of_mem (fields : List Field) (f : Field)
    (hmem : f ∈ fields) (hids : fields.Pairwise (fun a b => a.id ≠ b.id)) :
    findFieldById fields f.id = some f := by
  induction fields with
  | nil => cases hmem
  | cons g gs ih =>
    rcases List.mem_cons.mp hmem with h | h
    · subst h
      simp [findFieldById]
    · have hne : g.id ≠ f.id := (List.pairwise_cons.mp hids).1 f h
      simp only [findFieldById, if_neg (by simpa using hne)]
      exact ih h (List.pairwise_cons.mp hids).2

lemma findFieldById_none (fields : List Field) (idx : Int)
    (h : ∀ f ∈ fields, f.id ≠ idx) : findFieldById fields idx = none := by
  induction fields with
  | nil => rfl
  | cons g gs ih =>
    simp only [findFieldById, if_neg (h g (List.mem_cons_self g gs))]
    exact ih fun f hf => h f (List.mem_cons_of_mem g hf)

/-- Every schema-valid value resolves to a tag other than the STOP sentinel
(the tag its field header carries on the wire, never the stop marker). -/
lemma SV.tag_ne_stop {sch : Schema} {t : PType} {v : GoValue} (h : SV sch t v) :
    LookupType sch.types t.name ≠ TType.STOP := by
  cases h <;> simp_all [TType.STOP, TType.BOOL, TType.BYTE, TType.DOUBLE, TType.I16,
    TType.I32, TType.I64, TType.STRING, TType.STRUCT, TType.MAP, TType.LIST]

/- Fuel stability: any outcome other than fuel exhaustion is preserved by more
fuel.  Proved simultaneously for each mutual family, then lifted to `≤`. -/

lemma skipStableStep : ∀ n,
    (∀ tag toks r, skipValue n tag toks = r → r ≠ .error .fuel →
        skipValue (n + 1) tag toks = r) ∧
    (∀ toks r, skipFields n toks = r → r ≠ .error .fuel →
        skipFields (n + 1) toks = r) ∧
    (∀ kt vt k toks r, skipMapItems n kt vt k toks = r → r ≠ .error .fuel →
        skipMapItems (n + 1) kt vt k toks = r) ∧
    (∀ et k toks r, skipListItems n et k toks = r → r ≠ .error .fuel →
        skipListItems (n + 1) et k toks = r) := by
  intro n
  induction n with
  | zero =>
    refine ⟨?_, ?_, ?_, ?_⟩
    · intro tag toks r h hr
      simp only [skipValue] at h
      exact absurd h.symm hr
    · intro toks r h hr
      simp only [skipFields] at h
      exact absurd h.symm hr
    · intro kt vt k toks r h hr
      simp only [skipMapItems] at h
      exact absurd h.symm hr
    · intro et k toks r h hr
      simp only [skipListItems] at h
      exact absurd h.symm hr
  | succ n ih =>
    obtain ⟨ihV, ihF, ihM, ihL⟩ := ih
    refine ⟨?_, ?_, ?_, ?_⟩
    · intro tag toks r h hr
      cases htk : tagKind tag <;> simp only [skipValue, htk] at h ⊢ <;> try exact h
      · exact ihF _ _ h hr
      · cases hm : readMapBegin toks with
        | error e => simp only [hm] at h ⊢; exact h
        | ok q =>
          obtain ⟨kt, vt, size, r0⟩ := q
          simp only [hm] at h ⊢
          exact ihM _ _ _ _ _ h hr
      · cases hm : readListBegin toks with
        | error e => simp only [hm] at h ⊢; exact h
        | ok q =>
          obtain ⟨et, size, r0⟩ := q
          simp only [hm] at h ⊢
          exact ihL _ _ _ _ h hr
      · cases hm : readListBegin toks with
        | error e => simp only [hm] at h ⊢; exact h
        | ok q =>
          obtain ⟨et, size, r0⟩ := q
          simp only [hm] at h ⊢
          exact ihL _ _ _ _ h hr
    · intro toks r h hr
      simp only [skipFields] at h ⊢
      cases hb : readFieldBegin toks with
      | error e => simp only [hb] at h ⊢; exact h
      | ok q =>
        obtain ⟨ft, idx, r0⟩ := q
        simp only [hb] at h ⊢
        split_ifs at h ⊢
        · exact h
        · cases hs : skipValue n ft r0 with
          | error e =>
            simp only [hs] at h
            subst h
            simp [ihV _ _ _ hs hr]
          | ok r2 =>
            simp only [hs] at h
            simp only [ihV _ _ _ hs (by simp)]
            exact ihF _ _ h hr
    · intro kt vt k toks r h hr
      cases k with
      | zero =>
        simp only [skipMapItems] at h ⊢
        exact h
      | succ k =>
        simp only [skipMapItems] at h ⊢
        cases hs : skipValue n kt toks with
        | error e =>
          simp only [hs] at h
          subst h
          simp [ihV _ _ _ hs hr]
        | ok r0 =>
          simp only [hs] at h
          simp only [ihV _ _ _ hs (by simp)]
          cases hs2 : skipValue n vt r0 with
          | error e =>
            simp only [hs2] at h
            subst h
            simp [ihV _ _ _ hs2 hr]
          | ok r2 =>
            simp only [hs2] at h
            simp only [ihV _ _ _ hs2 (by simp)]
            exact ihM _ _ _ _ _ h hr
    · intro et k toks r h hr
      cases k with
      | zero =>
        simp only [skipListItems] at h ⊢
        exact h
      | succ k =>
        simp only [skipListItems] at h ⊢
        cases hs : skipValue n et toks with
        | error e =>
          simp only [hs] at h
          subst h
          simp [ihV _ _ _ hs hr]
        | ok r0 =>
          simp only [hs] at h
          simp only [ihV _ _ _ hs (by simp)]
          exact ihL _ _ _ _ h hr

lemma skipValue_mono {n m : Nat} (hnm : n ≤ m) {tag : Int} {toks : List Tok}
    {r : Except Failure (List Tok)} (h : skipValue n tag toks = r)
    (hr : r ≠ .error .fuel) : skipValue m tag toks = r := by
  induction hnm with
  | refl => exact h
  | step _ ih => exact (skipStableStep _).1 _ _ _ ih hr

lemma writeStableStep (sch : Schema) : ∀ n,
    (∀ t v r, writeValue sch n t v = r → r ≠ .error .fuel →
        writeValue sch (n + 1) t v = r) ∧
    (∀ t v r, writeStruct sch n t v = r → r ≠ .error .fuel →
        writeStruct sch (n + 1) t v = r) ∧
    (∀ fs kvs r, writeStructFields sch n fs kvs = r → r ≠ .error .fuel →
        writeStructFields sch (n + 1) fs kvs = r) ∧
    (∀ t v r, writeMap sch n t v = r → r ≠ .error .fuel →
        writeMap sch (n + 1) t v = r) ∧
    (∀ vt kvs r, writeMapItems sch n vt kvs = r → r ≠ .error .fuel →
        writeMapItems sch (n + 1) vt kvs = r) ∧
    (∀ t v r, writeList sch n t v = r → r ≠ .error .fuel →
        writeList sch (n + 1) t v = r) ∧
    (∀ vt xs r, writeListItems sch n vt xs = r → r ≠ .error .fuel →
        writeListItems sch (n + 1) vt xs = r) := by
  intro n
  induction n with
  | zero =>
    refine ⟨?_, ?_, ?_, ?_, ?_, ?_, ?_⟩ <;> intro a b c h hr <;>
      simp only [writeValue, writeStruct, writeStructFields, writeMap, writeMapItems,
        writeList, writeListItems] at h <;> exact absurd h.symm hr
  | succ n ih =>
    obtain ⟨ihV, ihS, ihSF, ihM, ihMI, ihL, ihLI⟩ := ih
    refine ⟨?_, ?_, ?_, ?_, ?_, ?_, ?_⟩
    · intro t v r h hr
      cases htk : tagKind (LookupType sch.types t.name) <;>
        simp only [writeValue, htk] at h ⊢ <;> try exact h
      · exact ihS _ _ _ h hr
      · exact ihM _ _ _ h hr
      · exact ihL _ _ _ h hr
    · intro t v r h hr
      simp only [writeStruct] at h ⊢
      cases ha : alookup sch.structs t.name with
      | none => simp only [ha] at h ⊢; exact h
      | some sd =>
        simp only [ha] at h ⊢
        cases v <;> try exact h
        case vmap kvs =>
          cases hw : writeStructFields sch n sd.fields kvs with
          | error e =>
            simp only [hw] at h
            subst h
            simp [ihSF _ _ _ hw hr]
          | ok toks =>
            simp only [hw] at h
            simp only [ihSF _ _ _ hw (by simp)]
            exact h
    · intro fs kvs r h hr
      cases fs with
      | nil => simp only [writeStructFields] at h ⊢; exact h
      | cons f fs =>
        simp only [writeStructFields] at h ⊢
        cases ha : alookup kvs f.name with
        | some sub =>
          simp only [ha] at h ⊢
          cases hw : writeValue sch n f.type sub with
          | error e =>
            simp only [hw] at h
            subst h
            simp [ihV _ _ _ hw hr]
          | ok vtoks =>
            simp only [hw] at h
            simp only [ihV _ _ _ hw (by simp)]
            cases hw2 : writeStructFields sch n fs kvs with
            | error e =>
              simp only [hw2] at h
              subst h
              simp [ihSF _ _ _ hw2 hr]
            | ok rest =>
              simp only [hw2] at h
              simp only [ihSF _ _ _ hw2 (by simp)]
              exact h
        | none =>
          simp only [ha] at h ⊢
          split_ifs at h ⊢
          · exact ihSF _ _ _ h hr
          · exact h
    · intro t v r h hr
      simp only [writeMap] at h ⊢
      cases v <;> try exact h
      case vmap kvs =>
        cases hvt : t.valueType with
        | none => simp only [hvt] at h ⊢; exact h
        | some vt =>
          simp only [hvt] at h ⊢
          cases hw : writeMapItems sch n vt kvs with
          | error e =>
            simp only [hw] at h
            subst h
            simp [ihMI _ _ _ hw hr]
          | ok body =>
            simp only [hw] at h
            simp only [ihMI _ _ _ hw (by simp)]
            exact h
    · intro vt kvs r h hr
      cases kvs with
      | nil => simp only [writeMapItems] at h ⊢; exact h
      | cons p rest =>
        obtain ⟨k, x⟩ := p
        simp only [writeMapItems] at h ⊢
        cases hw : writeValue sch n vt x with
        | error e =>
          simp only [hw] at h
          subst h
          simp [ihV _ _ _ hw hr]
        | ok xt =>
          simp only [hw] at h
          simp only [ihV _ _ _ hw (by simp)]
          cases hw2 : writeMapItems sch n vt rest with
          | error e =>
            simp only [hw2] at h
            subst h
            simp [ihMI _ _ _ hw2 hr]
          | ok rt =>
            simp only [hw2] at h
            simp only [ihMI _ _ _ hw2 (by simp)]
            exact h
    · intro t v r h hr
      simp only [writeList] at h ⊢
      cases v <;> try exact h
      case vlist xs =>
        cases hvt : t.valueType with
        | none => simp only [hvt] at h ⊢; exact h
        | some vt =>
          simp only [hvt] at h ⊢
          cases hw : writeListItems sch n vt xs with
          | error e =>
            simp only [hw] at h
            subst h
            simp [ihLI _ _ _ hw hr]
          | ok body =>
            simp only [hw] at h
            simp only [ihLI _ _ _ hw (by simp)]
            exact h
    · intro vt xs r h hr
      cases xs with
      | nil => simp only [writeListItems] at h ⊢; exact h
      | cons x rest =>
        simp only [writeListItems] at h ⊢
        cases hw : writeValue sch n vt x with
        | error e =>
          simp only [hw] at h
          subst h
          simp [ihV _ _ _ hw hr]
        | ok xt =>
          simp only [hw] at h
          simp only [ihV _ _ _ hw (by simp)]
          cases hw2 : writeListItems sch n vt rest with
          | error e =>
            simp only [hw2] at h
            subst h
            simp [ihLI _ _ _ hw2 hr]
          | ok rt =>
            simp only [hw2] at h
            simp only [ihLI _ _ _ hw2 (by simp)]
            exact h

lemma writeValue_mono {sch : Schema} {n m : Nat} (hnm : n ≤ m) {t : PType}
    {v : GoValue} {r : Except Failure (List Tok)} (h : writeValue sch n t v = r)
    (hr : r ≠ .error .fuel) : writeValue sch m t v = r := by
  induction hnm with
  | refl => exact h
  | step _ ih => exact (writeStableStep sch _).1 _ _ _ ih hr

lemma writeStructFields_mono {sch : Schema} {n m : Nat} (hnm : n ≤ m)
    {fs : List Field} {kvs : List (String × GoValue)} {r : Except Failure (List Tok)}
    (h : writeStructFields sch n fs kvs = r) (hr : r ≠ .error .fuel) :
    writeStructFields sch m fs kvs = r := by
  induction hnm with
  | refl => exact h
  | step _ ih => exact (writeStableStep sch _).2.2.1 _ _ _ ih hr

lemma writeMapItems_mono {sch : Schema} {n m : Nat} (hnm : n ≤ m) {vt : PType}
    {kvs : List (String × GoValue)} {r : Except Failure (List Tok)}
    (h : writeMapItems sch n vt kvs = r) (hr : r ≠ .error .fuel) :
    writeMapItems sch m vt kvs = r := by
  induction hnm with
  | refl => exact h
  | step _ ih => exact (writeStableStep sch _).2.2.2.2.1 _ _ _ ih hr

lemma writeListItems_mono {sch : Schema} {n m : Nat} (hnm : n ≤ m) {vt : PType}
    {xs : List GoValue} {r : Except Failure (List Tok)}
    (h : writeListItems sch n vt xs = r) (hr : r ≠ .error .fuel) :
    writeListItems sch m vt xs = r := by
  induction hnm with
  | refl => exact h
  | step _ ih => exact (writeStableStep sch _).2.2.2.2.2.2 _ _ _ ih hr

lemma normStableStep (sch : Schema) : ∀ n,
    (∀ t v w, normV sch n t v = some w → normV sch (n + 1) t v = some w) ∧
    (∀ fs kvs w, normFields sch n fs kvs = some w → normFields sch (n + 1) fs kvs = some w) ∧
    (∀ vt kvs w, normKVs sch n vt kvs = some w → normKVs sch (n + 1) vt kvs = some w) ∧
    (∀ vt xs w, normElems sch n vt xs = some w → normElems sch (n + 1) vt xs = some w) := by
  intro n
  induction n with
  | zero =>
    refine ⟨?_, ?_, ?_, ?_⟩ <;> intro a b c h <;>
      simp only [normV, normFields, normKVs, normElems] at h <;>
      exact Option.noConfusion h
  | succ n ih =>
    obtain ⟨ihV, ihF, ihK, ihE⟩ := ih
    refine ⟨?_, ?_, ?_, ?_⟩
    · intro t v w h
      cases htk : tagKind (LookupType sch.types t.name) <;>
        simp only [normV, htk] at h ⊢ <;> try exact h
      · cases ha : alookup sch.structs t.name with
        | none => simp only [ha] at h; exact Option.noConfusion h
        | some sd =>
          simp only [ha] at h ⊢
          cases v <;> try exact h
          case vmap kvs =>
            cases hn : normFields sch n sd.fields kvs with
            | none => simp [hn] at h
            | some ws => simp only [hn] at h; simp only [ihF _ _ _ hn]; exact h
      · cases hvt : t.valueType with
        | none => simp only [hvt] at h; exact Option.noConfusion h
        | some vt =>
          simp only [hvt] at h ⊢
          cases v <;> try exact h
          case vmap kvs =>
            cases hn : normKVs sch n vt kvs with
            | none => simp [hn] at h
            | some ws => simp only [hn] at h; simp only [ihK _ _ _ hn]; exact h
      · cases hvt : t.valueType with
        | none => simp only [hvt] at h; exact Option.noConfusion h
        | some vt =>
          simp only [hvt] at h ⊢
          cases v <;> try exact h
          case vlist xs =>
            cases hn : normElems sch n vt xs with
            | none => simp [hn] at h
            | some ws => simp only [hn] at h; simp only [ihE _ _ _ hn]; exact h
    · intro fs kvs w h
      cases fs with
      | nil => simp only [normFields] at h ⊢; exact h
      | cons f fs =>
        simp only [normFields] at h ⊢
        cases ha : alookup kvs f.name with
        | some sub =>
          simp only [ha] at h ⊢
          cases hn : normV sch n f.type sub with
          | none => simp [hn] at h
          | some w0 =>
            simp only [hn] at h
            simp only [ihV _ _ _ hn]
            cases hn2 : normFields sch n fs kvs with
            | none => simp [hn2] at h
            | some ws => simp only [hn2] at h; simp only [ihF _ _ _ hn2]; exact h
        | none =>
          simp only [ha] at h ⊢
          split_ifs at h ⊢
          exact ihF _ _ _ h
    · intro vt kvs w h
      cases kvs with
      | nil => simp only [normKVs] at h ⊢; exact h
      | cons p rest =>
        obtain ⟨k, x⟩ := p
        simp only [normKVs] at h ⊢
        cases hn : normV sch n vt x with
        | none => simp [hn] at h
        | some w0 =>
          simp only [hn] at h
          simp only [ihV _ _ _ hn]
          cases hn2 : normKVs sch n vt rest with
          | none => simp [hn2] at h
          | some ws => simp only [hn2] at h; simp only [ihK _ _ _ hn2]; exact h
    · intro vt xs w h
      cases xs with
      | nil => simp only [normElems] at h ⊢; exact h
      | cons x rest =>
        simp only [normElems] at h ⊢
        cases hn : normV sch n vt x with
        | none => simp [hn] at h
        | some w0 =>
          simp only [hn] at h
          simp only [ihV _ _ _ hn]
          cases hn2 : normElems sch n vt rest with
          | none => simp [hn2] at h
          | some ws => simp only [hn2] at h; simp only [ihE _ _ _ hn2]; exact h

lemma normV_mono {sch : Schema} {n m : Nat} (hnm : n ≤ m) {t : PType} {v w : GoValue}
    (h : normV sch n t v = some w) : normV sch m t v = some w := by
  induction hnm with
  | refl => exact h
  | step _ ih => exact (normStableStep sch _).1 _ _ _ ih

lemma normFields_mono {sch : Schema} {n m : Nat} (hnm : n ≤ m) {fs : List Field}
    {kvs w : List (String × GoValue)} (h : normFields sch n fs kvs = some w) :
    normFields sch m fs kvs = some w := by
  induction hnm with
  | refl => exact h
  | step _ ih => exact (normStableStep sch _).2.1 _ _ _ ih

lemma normKVs_mono {sch : Schema} {n m : Nat} (hnm : n ≤ m) {vt : PType}
    {kvs w : List (String × GoValue)} (h : normKVs sch n vt kvs = some w) :
    normKVs sch m vt kvs = some w := by
  induction hnm with
  | refl => exact h
  | step _ ih => exact (normStableStep sch _).2.2.1 _ _ _ ih

lemma normElems_mono {sch : Schema} {n m : Nat} (hnm : n ≤ m) {vt : PType}
    {xs w : List GoValue} (h : normElems sch n vt xs = some w) :
    normElems sch m vt xs = some w := by
  induction hnm with
  | refl => exact h
  | step _ ih => exact (normStableStep sch _).2.2.2 _ _ _ ih

lemma readStableStep (sch : Schema) : ∀ n,
    (∀ t toks r, readValue sch n t toks = r → r ≠ .error .fuel →
        readValue sch (n + 1) t toks = r) ∧
    (∀ t toks r, readStruct sch n t toks = r → r ≠ .error .fuel →
        readStruct sch (n + 1) t toks = r) ∧
    (∀ sd acc toks r, readStructFields sch n sd acc toks = r → r ≠ .error .fuel →
        readStructFields sch (n + 1) sd acc toks = r) ∧
    (∀ t toks r, readMap sch n t toks = r → r ≠ .error .fuel →
        readMap sch (n + 1) t toks = r) ∧
    (∀ vt k acc toks r, readMapItems sch n vt k acc toks = r → r ≠ .error .fuel →
        readMapItems sch (n + 1) vt k acc toks = r) ∧
    (∀ t toks r, readList sch n t toks = r → r ≠ .error .fuel →
        readList sch (n + 1) t toks = r) ∧
    (∀ vt k toks r, readListItems sch n vt k toks = r → r ≠ .error .fuel →
        readListItems sch (n + 1) vt k toks = r) := by
  intro n
  induction n with
  | zero =>
    refine ⟨?_, ?_, ?_, ?_, ?_, ?_, ?_⟩
    · intro t toks r h hr
      simp only [readValue] at h
      exact absurd h.symm hr
    · intro t toks r h hr
      simp only [readStruct] at h
      exact absurd h.symm hr
    · intro sd acc toks r h hr
      simp only [readStructFields] at h
      exact absurd h.symm hr
    · intro t toks r h hr
      simp only [readMap] at h
      exact absurd h.symm hr
    · intro vt k acc toks r h hr
      simp only [readMapItems] at h
      exact absurd h.symm hr
    · intro t toks r h hr
      simp only [readList] at h
      exact absurd h.symm hr
    · intro vt k toks r h hr
      simp only [readListItems] at h
      exact absurd h.symm hr
  | succ n ih =>
    obtain ⟨ihV, ihS, ihSF, ihM, ihMI, ihL, ihLI⟩ := ih
    refine ⟨?_, ?_, ?_, ?_, ?_, ?_, ?_⟩
    · intro t toks r h hr
      cases htk : tagKind (LookupType sch.types t.name) <;>
        simp only [readValue, htk] at h ⊢ <;> try exact h
      · exact ihS _ _ _ h hr
      · exact ihM _ _ _ h hr
      · exact ihL _ _ _ h hr
    · intro t toks r h hr
      simp only [readStruct] at h ⊢
      cases ha : alookup sch.structs t.name with
      | none => simp only [ha] at h ⊢; exact h
      | some sd =>
        simp only [ha] at h ⊢
        cases hf : readStructFields sch n sd [] toks with
        | error e =>
          simp only [hf] at h
          subst h
          have he : e ≠ Failure.fuel := fun hcon => hr (by rw [hcon])
          simp [ihSF _ _ _ _ hf (fun hcon => he (Except.error.inj hcon))]
        | ok q =>
          simp only [hf] at h
          simp only [ihSF _ _ _ _ hf (by simp)]
          exact h
    · intro sd acc toks r h hr
      simp only [readStructFields] at h ⊢
      cases hb : readFieldBegin toks with
      | error e => simp only [hb] at h ⊢; exact h
      | ok q =>
        obtain ⟨ft, idx, r0⟩ := q
        simp only [hb] at h ⊢
        split_ifs at h ⊢
        · exact h
        · cases hff : findFieldById sd.fields idx with
          | none =>
            simp only [hff] at h ⊢
            cases hs : skipValue n ft r0 with
            | ok r2 =>
              simp only [hs] at h
              simp only [skipValue_mono (Nat.le_succ n) hs (by simp)]
              exact ihSF _ _ _ _ h hr
            | error e =>
              cases e <;> simp only [hs] at h
              · simp only [skipValue_mono (Nat.le_succ n) hs (by simp)]
                exact ihSF _ _ _ _ h hr
              · simp only [skipValue_mono (Nat.le_succ n) hs (by simp)]
                exact ihSF _ _ _ _ h hr
              · simp only [skipValue_mono (Nat.le_succ n) hs (by simp)]
                exact ihSF _ _ _ _ h hr
              · exact absurd h.symm hr
          | some f =>
            simp only [hff] at h ⊢
            cases hv : readValue sch n f.type r0 with
            | error e =>
              simp only [hv] at h
              subst h
              have he : e ≠ Failure.fuel := fun hcon => hr (by rw [hcon])
              simp [ihV _ _ _ hv (fun hcon => he (Except.error.inj hcon))]
            | ok q2 =>
              obtain ⟨v, r2⟩ := q2
              simp only [hv] at h
              simp only [ihV _ _ _ hv (by simp)]
              exact ihSF _ _ _ _ h hr
    · intro t toks r h hr
      simp only [readMap] at h ⊢
      cases hb : readMapBegin toks with
      | error e => simp only [hb] at h ⊢; exact h
      | ok q =>
        obtain ⟨kt, vt, size, r0⟩ := q
        simp only [hb] at h ⊢
        cases hm : readMapItems sch n t.valueType size.toNat [] r0 with
        | error e =>
          simp only [hm] at h
          subst h
          have he : e ≠ Failure.fuel := fun hcon => hr (by rw [hcon])
          simp [ihMI _ _ _ _ _ hm (fun hcon => he (Except.error.inj hcon))]
        | ok q2 =>
          simp only [hm] at h
          simp only [ihMI _ _ _ _ _ hm (by simp)]
          exact h
    · intro vt k acc toks r h hr
      cases k with
      | zero => simp only [readMapItems] at h ⊢; exact h
      | succ k =>
        simp only [readMapItems] at h ⊢
        cases toks with
        | nil => exact h
        | cons tk r0 =>
          cases tk <;> try exact h
          case tstr key =>
            cases vt with
            | none => exact h
            | some vt0 =>
              simp only at h ⊢
              cases hv : readValue sch n vt0 r0 with
              | error e =>
                simp only [hv] at h
                subst h
                have he : e ≠ Failure.fuel := fun hcon => hr (by rw [hcon])
                simp [ihV _ _ _ hv (fun hcon => he (Except.error.inj hcon))]
              | ok q2 =>
                obtain ⟨v, r2⟩ := q2
                simp only [hv] at h
                simp only [ihV _ _ _ hv (by simp)]
                exact ihMI _ _ _ _ _ h hr
    · intro t toks r h hr
      simp only [readList] at h ⊢
      cases hb : readListBegin toks with
      | error e => simp only [hb] at h ⊢; exact h
      | ok q =>
        obtain ⟨et, size, r0⟩ := q
        simp only [hb] at h ⊢
        cases hm : readListItems sch n t.valueType size.toNat r0 with
        | error e =>
          simp only [hm] at h
          subst h
          have he : e ≠ Failure.fuel := fun hcon => hr (by rw [hcon])
          simp [ihLI _ _ _ _ hm (fun hcon => he (Except.error.inj hcon))]
        | ok q2 =>
          simp only [hm] at h
          simp only [ihLI _ _ _ _ hm (by simp)]
          exact h
    · intro vt k toks r h hr
      cases k with
      | zero => simp only [readListItems] at h ⊢; exact h
      | succ k =>
        simp only [readListItems] at h ⊢
        cases vt with
        | none => exact h
        | some vt0 =>
          simp only at h ⊢
          cases hv : readValue sch n vt0 toks with
          | error e =>
            simp only [hv] at h
            subst h
            have he : e ≠ Failure.fuel := fun hcon => hr (by rw [hcon])
            simp [ihV _ _ _ hv (fun hcon => he (Except.error.inj hcon))]
          | ok q2 =>
            obtain ⟨v, r0⟩ := q2
            simp only [hv] at h
            simp only [ihV _ _ _ hv (by simp)]
            cases hl : readListItems sch n vt0 k r0 with
            | error e =>
              simp only [hl] at h
              subst h
              simp [ihLI _ _ _ _ hl hr]
            | ok q3 =>
              simp only [hl] at h
              simp only [ihLI _ _ _ _ hl (by simp)]
              exact h

lemma readValue_mono {sch : Schema} {n m : Nat} (hnm : n ≤ m) {t : PType}
    {toks : List Tok} {r : Except Failure (GoValue × List Tok)}
    (h : readValue sch n t toks = r) (hr : r ≠ .error .fuel) :
    readValue sch m t toks = r := by
  induction hnm with
  | refl => exact h
  | step _ ih => exact (readStableStep sch _).1 _ _ _ ih hr

lemma readStructFields_mono {sch : Schema} {n m : Nat} (hnm : n ≤ m)
    {sd : StructDef} {acc : List (String × GoValue)} {toks : List Tok}
    {r : Except Failure (List (String × GoValue) × List Tok)}
    (h : readStructFields sch n sd acc toks = r) (hr : r ≠ .error .fuel) :
    readStructFields sch m sd acc toks = r := by
  induction hnm with
  | refl => exact h
  | step _ ih => exact (readStableStep sch _).2.2.1 _ _ _ _ ih hr

lemma readMapItems_mono {sch : Schema} {n m : Nat} (hnm : n ≤ m)
    {vt : Option PType} {k : Nat} {acc : List (String × GoValue)} {toks : List Tok}
    {r : Except Failure (List (String × GoValue) × List Tok)}
    (h : readMapItems sch n vt k acc toks = r) (hr : r ≠ .error .fuel) :
    readMapItems sch m vt k acc toks = r := by
  induction hnm with
  | refl => exact h
  | step _ ih => exact (readStableStep sch _).2.2.2.2.1 _ _ _ _ _ ih hr

lemma readListItems_mono {sch : Schema} {n m : Nat} (hnm : n ≤ m)
    {vt : Option PType} {k : Nat} {toks : List Tok}
    {r : Except Failure (List GoValue × List Tok)}
    (h : readListItems sch n vt k toks = r) (hr : r ≠ .error .fuel) :
    readListItems sch m vt k toks = r := by
  induction hnm with
  | refl => exact h
  | step _ ih => exact (readStableStep sch _).2.2.2.2.2.2 _ _ _ _ ih hr

@[simp] lemma tagKind_stop : tagKind TType.STOP = .kStop := by decide
@[simp] lemma tagKind_bool : tagKind TType.BOOL = .kBool := by decide
@[simp] lemma tagKind_byte : tagKind TType.BYTE = .kByte := by decide
@[simp] lemma tagKind_double : tagKind TType.DOUBLE = .kDouble := by decide
@[simp] lemma tagKind_i16 : tagKind TType.I16 = .kI16 := by decide
@[simp] lemma tagKind_i32 : tagKind TType.I32 = .kI32 := by decide
@[simp] lemma tagKind_i64 : tagKind TType.I64 = .kI64 := by decide
@[simp] lemma tagKind_string : tagKind TType.STRING = .kString := by decide
@[simp] lemma tagKind_struct : tagKind TType.STRUCT = .kStruct := by decide
@[simp] lemma tagKind_map : tagKind TType.MAP = .kMap := by decide
@[simp] lemma tagKind_list : tagKind TType.LIST = .kList := by decide

lemma alookup_append_one {α : Type} (acc : List (String × α)) (k key : String) (v : α) :
    alookup (acc ++ [(k, v)]) key =
      match alookup acc key with
      | some w => some w
      | none => if k = key then some v else none := by
  induction acc with
  | nil => simp [alookup]
  | cons p rest ih =>
    by_cases hp : p.1 = key
    · simp [alookup, hp]
    · simp only [List.cons_append, alookup, if_neg hp]
      exact ih

lemma alookup_mem {α : Type} {m : List (String × α)} {k : String} {v : α}
    (h : alookup m k = some v) : (k, v) ∈ m := by
  induction m with
  | nil => simp [alookup] at h
  | cons p rest ih =>
    obtain ⟨p1, p2⟩ := p
    by_cases hp : p1 = k
    · simp only [alookup, if_pos hp, Option.some.injEq] at h
      exact List.mem_cons.mpr (Or.inl (by rw [hp, h]))
    · simp only [alookup, if_neg hp] at h
      exact List.mem_cons_of_mem _ (ih h)

lemma sizeOf_alookup_lt {kvs : List (String × GoValue)} {name : String} {sub : GoValue}
    (h : alookup kvs name = some sub) : sizeOf sub < sizeOf (GoValue.vmap kvs) := by
  have h1 : sizeOf (name, sub) < sizeOf kvs := List.sizeOf_lt_of_mem (alookup_mem h)
  have h2 : sizeOf (name, sub) = 1 + sizeOf name + sizeOf sub := rfl
  simp only [GoValue.vmap.sizeOf_spec]
  omega

lemma sizeOf_mapVal_lt {kvs : List (String × GoValue)} (k : String) {x : GoValue}
    (h : (k, x) ∈ kvs) : sizeOf x < sizeOf (GoValue.vmap kvs) := by
  have h1 : sizeOf (k, x) < sizeOf kvs := List.sizeOf_lt_of_mem h
  have h2 : sizeOf (k, x) = 1 + sizeOf k + sizeOf x := rfl
  simp only [GoValue.vmap.sizeOf_spec]
  omega

lemma sizeOf_elem_lt {xs : List GoValue} {x : GoValue} (h : x ∈ xs) :
    sizeOf x < sizeOf (GoValue.vlist xs) := by
  have h1 : sizeOf x < sizeOf xs := List.sizeOf_lt_of_mem h
  simp only [GoValue.vlist.sizeOf_spec]
  omega

lemma SVFields_cons_inv {sch : Schema} {g : Field} {gs : List Field}
    {kvs : List (String × GoValue)} (h : SVFields sch (g :: gs) kvs) :
    SVFields sch gs kvs ∧
      ((∃ sub, alookup kvs g.name = some sub ∧ SV sch g.type sub) ∨
        (alookup kvs g.name = none ∧ g.optional = true)) := by
  cases h with
  | present => exact ⟨by assumption, Or.inl ⟨_, by assumption, by assumption⟩⟩
  | absent => exact ⟨by assumption, Or.inr ⟨by assumption, by assumption⟩⟩

lemma SVKVs_cons_inv {sch : Schema} {vt : PType} {k : String} {x : GoValue}
    {rest : List (String × GoValue)} (h : SVKVs sch vt ((k, x) :: rest)) :
    SV sch vt x ∧ SVKVs sch vt rest := by
  cases h with
  | cons => exact ⟨by assumption, by assumption⟩

lemma SVElems_cons_inv {sch : Schema} {vt : PType} {x : GoValue} {rest : List GoValue}
    (h : SVElems sch vt (x :: rest)) : SV sch vt x ∧ SVElems sch vt rest := by
  cases h with
  | cons => exact ⟨by assumption, by assumption⟩

lemma SVFields_lookup {sch : Schema} {kvs : List (String × GoValue)} :
    ∀ {fs : List Field}, SVFields sch fs kvs → ∀ {f : Field}, f ∈ fs →
    ∀ {sub : GoValue}, alookup kvs f.name = some sub → SV sch f.type sub := by
  intro fs
  induction fs with
  | nil =>
    intro _ f hf
    cases hf
  | cons g gs ih =>
    intro h f hf sub hl
    obtain ⟨hfs, hg⟩ := SVFields_cons_inv h
    rcases List.mem_cons.mp hf with hEq | hMem
    · subst hEq
      rcases hg with ⟨sub0, hla, hsv⟩ | ⟨hla, _⟩
      · rw [hla] at hl
        injection hl with hl
        rw [← hl]
        exact hsv
      · rw [hla] at hl
        cases hl
    · exact ih hfs hMem hl

lemma SVKVs_mem {sch : Schema} {vt : PType} :
    ∀ {kvs : List (String × GoValue)}, SVKVs sch vt kvs →
    ∀ {k : String} {x : GoValue}, (k, x) ∈ kvs → SV sch vt x := by
  intro kvs
  induction kvs with
  | nil =>
    intro _ k x hm
    cases hm
  | cons p rest ih =>
    obtain ⟨k0, x0⟩ := p
    intro h k x hm
    obtain ⟨hx, hrest⟩ := SVKVs_cons_inv h
    rcases List.mem_cons.mp hm with hEq | hMem
    · injection hEq with h1 h2
      subst h2
      exact hx
    · exact ih hrest hMem

lemma SVElems_mem {sch : Schema} {vt : PType} :
    ∀ {xs : List GoValue}, SVElems sch vt xs →
    ∀ {x : GoValue}, x ∈ xs → SV sch vt x := by
  intro xs
  induction xs with
  | nil =>
    intro _ x hm
    cases hm
  | cons y rest ih =>
    intro h x hm
    obtain ⟨hy, hrest⟩ := SVElems_cons_inv h
    rcases List.mem_cons.mp hm with hEq | hMem
    · subst hEq
      exact hy
    · exact ih hrest hMem

lemma rt_elems (sch : Schema) (vt : PType) :
    ∀ (xs : List GoValue), SVElems sch vt xs → (∀ x ∈ xs, RT sch vt x) →
    ∃ body ws n, ∀ m, n ≤ m →
      writeListItems sch m vt xs = .ok body ∧
      normElems sch m vt xs = some ws ∧
      ∀ rest, readListItems sch m (some vt) xs.length (body ++ rest) = .ok (ws, rest) := by
  intro xs
  induction xs with
  | nil =>
    intro _ _
    refine ⟨[], [], 1, ?_⟩
    intro m hm
    obtain ⟨m', rfl⟩ : ∃ m', m = m' + 1 := ⟨m - 1, by omega⟩
    refine ⟨by simp [writeListItems], by simp [normElems], ?_⟩
    intro rest
    simp [readListItems]
  | cons x rest ih =>
    intro hsv hrt
    obtain ⟨vtoks, v', nx, Hx⟩ := hrt x (List.mem_cons_self x rest)
    have hsv' : SVElems sch vt rest := by cases hsv; assumption
    obtain ⟨body', ws', nr, Hr⟩ :=
      ih hsv' fun y hy => hrt y (List.mem_cons_of_mem x hy)
    refine ⟨vtoks ++ body', v' :: ws', max nx nr + 1, ?_⟩
    intro m hm
    obtain ⟨m', rfl⟩ : ∃ m', m = m' + 1 := ⟨m - 1, by omega⟩
    have hmx : nx ≤ m' := by omega
    have hmr : nr ≤ m' := by omega
    obtain ⟨hWx, hNx, hRx⟩ := Hx m' hmx
    obtain ⟨hWr, hNr, hRr⟩ := Hr m' hmr
    refine ⟨?_, ?_, ?_⟩
    · simp [writeListItems, hWx, hWr]
    · simp [normElems, hNx, hNr]
    · intro rest2
      simp only [readListItems, List.length_cons, List.append_assoc]
      rw [hRx (body' ++ rest2)]
      simp [hRr rest2]

lemma rt_kvs (sch : Schema) (vt : PType) :
    ∀ (kvs : List (String × GoValue)), SVKVs sch vt kvs →
    (∀ p ∈ kvs, RT sch vt p.2) →
    (akeys kvs).Nodup →
    ∃ body ws n, ∀ m, n ≤ m →
      writeMapItems sch m vt kvs = .ok body ∧
      normKVs sch m vt kvs = some ws ∧
      ∀ acc rest, (∀ p ∈ kvs, alookup acc p.1 = none) →
        readMapItems sch m (some vt) kvs.length acc (body ++ rest) =
          .ok (acc ++ ws, rest) := by
  intro kvs
  induction kvs with
  | nil =>
    intro _ _ _
    refine ⟨[], [], 1, ?_⟩
    intro m hm
    obtain ⟨m', rfl⟩ : ∃ m', m = m' + 1 := ⟨m - 1, by omega⟩
    refine ⟨by simp [writeMapItems], by simp [normKVs], ?_⟩
    intro acc rest _
    simp [readMapItems]
  | cons p rest ih =>
    obtain ⟨k, x⟩ := p
    intro hsv hrt hnd
    obtain ⟨hx, hrest⟩ := SVKVs_cons_inv hsv
    have hnd' := hnd
    simp only [akeys, List.map_cons, List.nodup_cons] at hnd'
    obtain ⟨hknotin, hndrest⟩ := hnd'
    obtain ⟨vtoks, w, nx, Hx⟩ := hrt (k, x) (List.mem_cons_self _ _)
    obtain ⟨body', ws', nr, Hr⟩ :=
      ih hrest (fun q hq => hrt q (List.mem_cons_of_mem _ hq)) hndrest
    refine ⟨.tstr k :: (vtoks ++ body'), (k, w) :: ws', max nx nr + 1, ?_⟩
    intro m hm
    obtain ⟨m', rfl⟩ : ∃ m', m = m' + 1 := ⟨m - 1, by omega⟩
    have hmx : nx ≤ m' := by omega
    have hmr : nr ≤ m' := by omega
    obtain ⟨hWx, hNx, hRx⟩ := Hx m' hmx
    obtain ⟨hWr, hNr, hRr⟩ := Hr m' hmr
    refine ⟨?_, ?_, ?_⟩
    · simp [writeMapItems, hWx, hWr]
    · simp [normKVs, hNx, hNr]
    · intro acc rest2 hdisj
      have hacck : alookup acc k = none := hdisj (k, x) (List.mem_cons_self _ _)
      simp only [readMapItems, List.length_cons, List.cons_append, List.append_assoc]
      simp only [hRx]
      have hset : aset acc k w = acc ++ [(k, w)] := aset_fresh _ _ _ hacck
      rw [hset]
      have hdisj' : ∀ q ∈ rest, alookup (acc ++ [(k, w)]) q.1 = none := by
        intro q hq
        rw [alookup_append_one]
        have h1 : alookup acc q.1 = none := hdisj q (List.mem_cons_of_mem _ hq)
        have h2 : k ≠ q.1 := by
          intro hkq
          exact hknotin (hkq ▸ List.mem_map_of_mem Prod.fst hq)
        simp [h1, h2]
      rw [hRr (acc ++ [(k, w)]) rest2 hdisj']
      simp

lemma readStructFields_stop (sch : Schema) (m : Nat) (sd : StructDef)
    (acc : List (String × GoValue)) (rest : List Tok) :
    readStructFields sch (m + 1) sd acc (.tbyte TType.STOP :: rest) = .ok (acc, rest) := by
  simp [readStructFields, readFieldBegin]

lemma readStructFields_cons_known (sch : Schema) (m : Nat) (sd : StructDef)
    (acc : List (String × GoValue)) {tag id : Int} (htag : tag ≠ TType.STOP)
    {f : Field} (hfind : findFieldById sd.fields id = some f) (toks : List Tok) :
    readStructFields sch (m + 1) sd acc (.tbyte tag :: .ti16 id :: toks) =
      match readValue sch m f.type toks with
      | .error e => .error e
      | .ok (v, r2) => readStructFields sch m sd (aset acc f.name v) r2 := by
  simp [readStructFields, readFieldBegin, htag, hfind]

lemma rt_fields (sch : Schema) (sd : StructDef)
    (hids : sd.fields.Pairwise (fun a b => a.id ≠ b.id))
    (hbounds : ∀ f ∈ sd.fields, -(2 ^ 15) ≤ f.id ∧ f.id < 2 ^ 15) :
    ∀ (fs : List Field) (kvs : List (String × GoValue)),
      (∀ f ∈ fs, f ∈ sd.fields) →
      fs.Pairwise (fun a b => a.name ≠ b.name) →
      SVFields sch fs kvs →
      (∀ f ∈ fs, ∀ sub, alookup kvs f.name = some sub → RT sch f.type sub) →
      ∃ ftoks fkvs n, ∀ m, n ≤ m →
        writeStructFields sch m fs kvs = .ok ftoks ∧
        normFields sch m fs kvs = some fkvs ∧
        ∀ acc rest, (∀ f ∈ fs, alookup acc f.name = none) →
          readStructFields sch m sd acc (ftoks ++ .tbyte TType.STOP :: rest) =
            .ok (acc ++ fkvs, rest) := by
  intro fs
  induction fs with
  | nil =>
    intro kvs _ _ _ _
    refine ⟨[], [], 1, ?_⟩
    intro m hm
    obtain ⟨m', rfl⟩ : ∃ m', m = m' + 1 := ⟨m - 1, by omega⟩
    refine ⟨by simp [writeStructFields], by simp [normFields], ?_⟩
    intro acc rest _
    simp [readStructFields_stop]
  | cons f fs ih =>
    intro kvs hsub hpw hsv hrt
    have hfmem : f ∈ sd.fields := hsub f (List.mem_cons_self _ _)
    obtain ⟨hsvrest, hg⟩ := SVFields_cons_inv hsv
    obtain ⟨hpwhead, hpwrest⟩ := List.pairwise_cons.mp hpw
    obtain ⟨ftoks', fkvs', nr, Hr⟩ :=
      ih kvs (fun g hgm => hsub g (List.mem_cons_of_mem _ hgm)) hpwrest hsvrest
        (fun g hgm sub hl => hrt g (List.mem_cons_of_mem _ hgm) sub hl)
    rcases hg with ⟨sub, hla, hsvsub⟩ | ⟨hla, hopt⟩
    · -- the field is present in the mapping and is written
      obtain ⟨vtoks, v', nx, Hx⟩ := hrt f (List.mem_cons_self _ _) sub hla
      have htag : LookupType sch.types f.type.name ≠ TType.STOP := hsvsub.tag_ne_stop
      have hid : wrap16 f.id = f.id :=
        wrap16_eq_self (hbounds f hfmem).1 (hbounds f hfmem).2
      have hfind : findFieldById sd.fields f.id = some f :=
        findFieldById_of_mem _ _ hfmem hids
      refine ⟨.tbyte (LookupType sch.types f.type.name) :: .ti16 f.id ::
        (vtoks ++ ftoks'), (f.name, v') :: fkvs', max nx nr + 1, ?_⟩
      intro m hm
      obtain ⟨m', rfl⟩ : ∃ m', m = m' + 1 := ⟨m - 1, by omega⟩
      have hmx : nx ≤ m' := by omega
      have hmr : nr ≤ m' := by omega
      obtain ⟨hWx, hNx, hRx⟩ := Hx m' hmx
      obtain ⟨hWr, hNr, hRr⟩ := Hr m' hmr
      refine ⟨?_, ?_, ?_⟩
      · simp [writeStructFields, hla, hWx, hWr, hid]
      · simp [normFields, hla, hNx, hNr]
      · intro acc rest hdisj
        have haccf : alookup acc f.name = none := hdisj f (List.mem_cons_self _ _)
        simp only [List.cons_append, List.append_assoc]
        rw [readStructFields_cons_known sch m' sd acc htag hfind]
        simp only [hRx]
        have hset : aset acc f.name v' = acc ++ [(f.name, v')] :=
          aset_fresh _ _ _ haccf
        rw [hset]
        have hdisj' : ∀ g ∈ fs, alookup (acc ++ [(f.name, v')]) g.name = none := by
          intro g hgm
          rw [alookup_append_one]
          have h1 : alookup acc g.name = none := hdisj g (List.mem_cons_of_mem _ hgm)
          have h2 : f.name ≠ g.name := hpwhead g hgm
          simp [h1, h2]
        rw [hRr (acc ++ [(f.name, v')]) rest hdisj']
        simp
    · -- the field is absent and optional: nothing is written
      refine ⟨ftoks', fkvs', nr + 1, ?_⟩
      intro m hm
      obtain ⟨m', rfl⟩ : ∃ m', m = m' + 1 := ⟨m - 1, by omega⟩
      have hmr : nr ≤ m' := by omega
      obtain ⟨hWr, hNr, hRr⟩ := Hr m' hmr
      refine ⟨?_, ?_, ?_⟩
      · simp [writeStructFields, hla, hopt, hWr]
      · simp [normFields, hla, hopt, hNr]
      · intro acc rest hdisj
        exact readStructFields_mono (Nat.le_succ m')
          (hRr acc rest fun g hgm => hdisj g (List.mem_cons_of_mem _ hgm)) (by simp)

/-- Round-trip core: every schema-valid generic value written by `WriteValue`
is read back by `ReadValue` as its normalization (`normV`). -/
theorem rt_main (sch : Schema) (hwf : WFSchema sch) :
    ∀ (v : GoValue) (t : PType), SV sch t v → RT sch t v := by
  suffices H : ∀ (N : Nat) (v : GoValue), sizeOf v ≤ N → ∀ t, SV sch t v → RT sch t v by
    intro v t hsv
    exact H (sizeOf v) v le_rfl t hsv
  intro N
  induction N with
  | zero =>
    intro v hv
    exfalso
    cases v <;> simp at hv
  | succ N ihN =>
    intro v hv t hsv
    cases hsv with
    | bool =>
      rename_i b hlk
      refine ⟨[.tbool b], .vbool b, 1, ?_⟩
      intro m hm
      obtain ⟨m', rfl⟩ : ∃ m', m = m' + 1 := ⟨m - 1, by omega⟩
      exact ⟨by simp [writeValue, hlk], by simp [normV, hlk],
        fun rest => by simp [readValue, hlk]⟩
    | byte =>
      rename_i b hlk
      refine ⟨[.tbyte b], .vbyte b, 1, ?_⟩
      intro m hm
      obtain ⟨m', rfl⟩ : ∃ m', m = m' + 1 := ⟨m - 1, by omega⟩
      exact ⟨by simp [writeValue, hlk], by simp [normV, hlk],
        fun rest => by simp [readValue, hlk]⟩
    | double =>
      rename_i q hlk hc
      refine ⟨[.tdouble q], .vdouble q, 1, ?_⟩
      intro m hm
      obtain ⟨m', rfl⟩ : ∃ m', m = m' + 1 := ⟨m - 1, by omega⟩
      exact ⟨by simp [writeValue, hlk, hc], by simp [normV, hlk, hc],
        fun rest => by simp [readValue, hlk]⟩
    | i16 =>
      rename_i mm hlk hc
      refine ⟨[.ti16 mm], .vi16 mm, 1, ?_⟩
      intro m hm
      obtain ⟨m', rfl⟩ : ∃ m', m = m' + 1 := ⟨m - 1, by omega⟩
      exact ⟨by simp [writeValue, hlk, hc], by simp [normV, hlk, hc],
        fun rest => by simp [readValue, hlk]⟩
    | i32 =>
      rename_i mm hlk hc
      refine ⟨[.ti32 mm], .vi32 mm, 1, ?_⟩
      intro m hm
      obtain ⟨m', rfl⟩ : ∃ m', m = m' + 1 := ⟨m - 1, by omega⟩
      exact ⟨by simp [writeValue, hlk, hc], by simp [normV, hlk, hc],
        fun rest => by simp [readValue, hlk]⟩
    | i64 =>
      rename_i mm hlk hc
      refine ⟨[.ti64 mm], .vi64 mm, 1, ?_⟩
      intro m hm
      obtain ⟨m', rfl⟩ : ∃ m', m = m' + 1 := ⟨m - 1, by omega⟩
      exact ⟨by simp [writeValue, hlk, hc], by simp [normV, hlk, hc],
        fun rest => by simp [readValue, hlk]⟩
    | str =>
      rename_i s hlk
      refine ⟨[.tstr s], .vstr s, 1, ?_⟩
      intro m hm
      obtain ⟨m', rfl⟩ : ∃ m', m = m' + 1 := ⟨m - 1, by omega⟩
      exact ⟨by simp [writeValue, hlk], by simp [normV, hlk],
        fun rest => by simp [readValue, hlk]⟩
    | strct =>
      rename_i sd kvs hfields hlk hst
      obtain ⟨hpw, hbounds⟩ := hwf _ _ hst
      have hids : sd.fields.Pairwise (fun a b => a.id ≠ b.id) :=
        hpw.imp (fun h => h.2)
      have hnames : sd.fields.Pairwise (fun a b => a.name ≠ b.name) :=
        hpw.imp (fun h => h.1)
      obtain ⟨ftoks, fkvs, n, H⟩ :=
        rt_fields sch sd hids hbounds sd.fields kvs (fun _ h => h) hnames hfields
          (fun f hf sub hl =>
            ihN sub (by have := sizeOf_alookup_lt hl; omega) f.type
              (SVFields_lookup hfields hf hl))
      refine ⟨ftoks ++ [.tbyte TType.STOP], .vmap fkvs, n + 2, ?_⟩
      intro m hm
      obtain ⟨m', rfl⟩ : ∃ m', m = m' + 2 := ⟨m - 2, by omega⟩
      have hm' : n ≤ m' := by omega
      obtain ⟨hW, hN, hR⟩ := H m' hm'
      refine ⟨?_, ?_, fun rest => ?_⟩
      · simp [writeValue, hlk, writeStruct, hst, hW]
      · have hN1 := normFields_mono (Nat.le_succ m') hN
        simp [normV, hlk, hst, hN1]
      · have hR1 := hR [] rest (fun f hf => by simp [alookup])
        simp [readValue, hlk, readStruct, hst, hR1]
    | map =>
      rename_i vt kvs hnd hkvs hlk hvt
      obtain ⟨body, ws, n, H⟩ :=
        rt_kvs sch vt kvs hkvs
          (fun p hp =>
            ihN p.2 (by have := sizeOf_mapVal_lt p.1 (by simpa using hp); omega)
              vt (SVKVs_mem hkvs (by simpa using hp)))
          hnd
      refine ⟨.tbyte TType.STRING :: .tbyte (LookupType sch.types vt.name) ::
        .ti32 (Int.ofNat kvs.length) :: body, .vmap ws, n + 2, ?_⟩
      intro m hm
      obtain ⟨m', rfl⟩ : ∃ m', m = m' + 2 := ⟨m - 2, by omega⟩
      have hm' : n ≤ m' := by omega
      obtain ⟨hW, hN, hR⟩ := H m' hm'
      refine ⟨?_, ?_, fun rest => ?_⟩
      · simp [writeValue, hlk, writeMap, hvt, hW]
      · have hN1 := normKVs_mono (Nat.le_succ m') hN
        simp [normV, hlk, hvt, hN1]
      · have hR1 := hR [] rest (fun p hp => by simp [alookup])
        simp [readValue, hlk, readMap, readMapBegin, hvt, hR1]
    | list =>
      rename_i vt xs hxs hlk hvt
      obtain ⟨body, ws, n, H⟩ :=
        rt_elems sch vt xs hxs
          (fun x hx =>
            ihN x (by have := sizeOf_elem_lt hx; omega) vt (SVElems_mem hxs hx))
      refine ⟨.tbyte (LookupType sch.types vt.name) ::
        .ti32 (Int.ofNat xs.length) :: body, .vlist ws, n + 2, ?_⟩
      intro m hm
      obtain ⟨m', rfl⟩ : ∃ m', m = m' + 2 := ⟨m - 2, by omega⟩
      have hm' : n ≤ m' := by omega
      obtain ⟨hW, hN, hR⟩ := H m' hm'
      refine ⟨?_, ?_, fun rest => ?_⟩
      · simp [writeValue, hlk, writeList, hvt, hW]
      · have hN1 := normElems_mono (Nat.le_succ m') hN
        simp [normV, hlk, hvt, hN1]
      · have hR1 := hR rest
        simp [readValue, hlk, readList, readListBegin, hvt, hR1]

lemma wtag_ne_stop (w : WireVal) : wtag w ≠ TType.STOP := by
  cases w <;> simp [wtag, TType.STOP, TType.BOOL, TType.BYTE, TType.I16, TType.I32,
    TType.I64, TType.DOUBLE, TType.STRING, TType.STRUCT, TType.MAP, TType.LIST, TType.SET]

lemma WFwFields_mem : ∀ {flds : List (Int × WireVal)}, WFwFields flds →
    ∀ {p : Int × WireVal}, p ∈ flds → WFw p.2 := by
  intro flds
  induction flds with
  | nil =>
    intro _ p hp
    cases hp
  | cons q rest ih =>
    intro h p hp
    cases h with
    | cons =>
      rename_i hw hrest
      rcases List.mem_cons.mp hp with hEq | hMem
      · subst hEq
        exact hw
      · exact ih hrest hMem

lemma WFwPairs_mem : ∀ {kt vt : Int} {prs : List (WireVal × WireVal)},
    WFwPairs kt vt prs → ∀ {p : WireVal × WireVal}, p ∈ prs →
    (wtag p.1 = kt ∧ wtag p.2 = vt) ∧ (WFw p.1 ∧ WFw p.2) := by
  intro kt vt prs
  induction prs with
  | nil =>
    intro _ p hp
    cases hp
  | cons q rest ih =>
    intro h p hp
    cases h with
    | cons =>
      rename_i hwk hwv htk htv hrest
      rcases List.mem_cons.mp hp with hEq | hMem
      · subst hEq
        exact ⟨⟨htk, htv⟩, hwk, hwv⟩
      · exact ih hrest hMem

lemma WFwElems_mem : ∀ {et : Int} {elems : List WireVal},
    WFwElems et elems → ∀ {w : WireVal}, w ∈ elems → wtag w = et ∧ WFw w := by
  intro et elems
  induction elems with
  | nil =>
    intro _ w hw
    cases hw
  | cons x rest ih =>
    intro h w hw
    cases h with
    | cons =>
      rename_i hwx ht hrest
      rcases List.mem_cons.mp hw with hEq | hMem
      · subst hEq
        exact ⟨ht, hwx⟩
      · exact ih hrest hMem

lemma sizeOf_wfield_lt {flds : List (Int × WireVal)} {p : Int × WireVal}
    (h : p ∈ flds) : sizeOf p.2 < sizeOf (WireVal.wstruct flds) := by
  have h1 : sizeOf p < sizeOf flds := List.sizeOf_lt_of_mem h
  obtain ⟨a, b⟩ := p
  have h2 : sizeOf (a, b) = 1 + sizeOf a + sizeOf b := rfl
  simp only [WireVal.wstruct.sizeOf_spec]
  simp only at h1 ⊢
  omega

lemma sizeOf_wpair_lt {prs : List (WireVal × WireVal)} {p : WireVal × WireVal}
    (h : p ∈ prs) (kt vt : Int) :
    sizeOf p.1 < sizeOf (WireVal.wmap kt vt prs) ∧
    sizeOf p.2 < sizeOf (WireVal.wmap kt vt prs) := by
  have h1 : sizeOf p < sizeOf prs := List.sizeOf_lt_of_mem h
  obtain ⟨a, b⟩ := p
  have h2 : sizeOf (a, b) = 1 + sizeOf a + sizeOf b := rfl
  simp only [WireVal.wmap.sizeOf_spec]
  simp only at h1 ⊢
  omega

lemma sizeOf_welem_lt {elems : List WireVal} {w : WireVal} (h : w ∈ elems) (et : Int) :
    sizeOf w < sizeOf (WireVal.wlist et elems) ∧
    sizeOf w < sizeOf (WireVal.wset et elems) := by
  have h1 : sizeOf w < sizeOf elems := List.sizeOf_lt_of_mem h
  simp only [WireVal.wlist.sizeOf_spec, WireVal.wset.sizeOf_spec]
  omega

/-- `Skip` consumes exactly the encoding of a well-formed wire value. -/
def SkipRT (w : WireVal) : Prop :=
  ∃ n, ∀ m, n ≤ m → ∀ rest, skipValue m (wtag w) (encodeWv w ++ rest) = .ok rest

lemma skipWv_fields :
    ∀ (flds : List (Int × WireVal)), (∀ p ∈ flds, SkipRT p.2) →
    ∃ n, ∀ m, n ≤ m → ∀ rest,
      skipFields m (encodeWvFields flds ++ .tbyte TType.STOP :: rest) = .ok rest := by
  intro flds
  induction flds with
  | nil =>
    intro _
    refine ⟨1, ?_⟩
    intro m hm rest
    obtain ⟨m', rfl⟩ : ∃ m', m = m' + 1 := ⟨m - 1, by omega⟩
    simp [encodeWvFields, skipFields, readFieldBegin]
  | cons q rest0 ih =>
    obtain ⟨id, w⟩ := q
    intro hall
    obtain ⟨nw, Hw⟩ := hall (id, w) (List.mem_cons_self _ _)
    dsimp only at Hw
    obtain ⟨nr, Hr⟩ := ih fun p hp => hall p (List.mem_cons_of_mem _ hp)
    refine ⟨max nw nr + 1, ?_⟩
    intro m hm rest
    obtain ⟨m', rfl⟩ : ∃ m', m = m' + 1 := ⟨m - 1, by omega⟩
    simp only [encodeWvFields, List.cons_append, List.append_assoc]
    simp only [skipFields, readFieldBegin, if_neg (wtag_ne_stop w)]
    rw [Hw m' (by omega) (encodeWvFields rest0 ++ .tbyte TType.STOP :: rest)]
    exact Hr m' (by omega) rest

lemma skipWv_pairs (kt vt : Int) :
    ∀ (prs : List (WireVal × WireVal)), WFwPairs kt vt prs →
    (∀ p ∈ prs, SkipRT p.1 ∧ SkipRT p.2) →
    ∃ n, ∀ m, n ≤ m → ∀ rest,
      skipMapItems m kt vt prs.length (encodeWvPairs prs ++ rest) = .ok rest := by
  intro prs
  induction prs with
  | nil =>
    intro _ _
    refine ⟨1, ?_⟩
    intro m hm rest
    obtain ⟨m', rfl⟩ : ∃ m', m = m' + 1 := ⟨m - 1, by omega⟩
    simp [encodeWvPairs, skipMapItems]
  | cons q rest0 ih =>
    obtain ⟨k, v⟩ := q
    intro hwf hall
    obtain ⟨⟨htk, htv⟩, _, _⟩ := WFwPairs_mem hwf (List.mem_cons_self _ _)
    dsimp only at htk htv
    obtain ⟨⟨nk, Hk⟩, ⟨nv, Hv⟩⟩ := hall (k, v) (List.mem_cons_self _ _)
    dsimp only at Hk Hv
    have hwf' : WFwPairs kt vt rest0 := by
      cases hwf with
      | cons => assumption
    obtain ⟨nr, Hr⟩ := ih hwf' fun p hp => hall p (List.mem_cons_of_mem _ hp)
    refine ⟨max nk (max nv nr) + 1, ?_⟩
    intro m hm rest
    obtain ⟨m', rfl⟩ : ∃ m', m = m' + 1 := ⟨m - 1, by omega⟩
    simp only [encodeWvPairs, List.length_cons, List.cons_append, List.append_assoc]
    simp only [skipMapItems]
    rw [show kt = wtag k from htk.symm, show vt = wtag v from htv.symm]
    simp only [Hk m' (by omega), Hv m' (by omega)]
    rw [htk, htv]
    exact Hr m' (by omega) rest

lemma skipWv_elems (et : Int) :
    ∀ (elems : List WireVal), WFwElems et elems → (∀ w ∈ elems, SkipRT w) →
    ∃ n, ∀ m, n ≤ m → ∀ rest,
      skipListItems m et elems.length (encodeWvElems elems ++ rest) = .ok rest := by
  intro elems
  induction elems with
  | nil =>
    intro _ _
    refine ⟨1, ?_⟩
    intro m hm rest
    obtain ⟨m', rfl⟩ : ∃ m', m = m' + 1 := ⟨m - 1, by omega⟩
    simp [encodeWvElems, skipListItems]
  | cons x rest0 ih =>
    intro hwf hall
    obtain ⟨htx, _⟩ := WFwElems_mem hwf (List.mem_cons_self _ _)
    obtain ⟨nx, Hx⟩ := hall x (List.mem_cons_self _ _)
    have hwf' : WFwElems et rest0 := by
      cases hwf with
      | cons => assumption
    obtain ⟨nr, Hr⟩ := ih hwf' fun w hw => hall w (List.mem_cons_of_mem _ hw)
    refine ⟨max nx nr + 1, ?_⟩
    intro m hm rest
    obtain ⟨m', rfl⟩ : ∃ m', m = m' + 1 := ⟨m - 1, by omega⟩
    simp only [encodeWvElems, List.length_cons, List.cons_append, List.append_assoc]
    simp only [skipListItems]
    rw [show et = wtag x from htx.symm]
    simp only [Hx m' (by omega)]
    rw [htx]
    exact Hr m' (by omega) rest

/-- Skip core: the codec's skip operation consumes exactly the payload of any
well-formed wire value of the tag it is given. -/
theorem skip_main : ∀ (w : WireVal), WFw w → SkipRT w := by
  suffices H : ∀ (N : Nat) (w : WireVal), sizeOf w ≤ N → WFw w → SkipRT w by
    intro w hw
    exact H (sizeOf w) w le_rfl hw
  intro N
  induction N with
  | zero =>
    intro w hw
    exfalso
    cases w <;> simp at hw
  | succ N ihN =>
    intro w hw hwf
    cases hwf with
    | wbool b =>
      refine ⟨1, ?_⟩
      intro m hm rest
      obtain ⟨m', rfl⟩ : ∃ m', m = m' + 1 := ⟨m - 1, by omega⟩
      simp [skipValue, wtag, encodeWv]
    | wbyte n =>
      refine ⟨1, ?_⟩
      intro m hm rest
      obtain ⟨m', rfl⟩ : ∃ m', m = m' + 1 := ⟨m - 1, by omega⟩
      simp [skipValue, wtag, encodeWv]
    | wi16 n =>
      refine ⟨1, ?_⟩
      intro m hm rest
      obtain ⟨m', rfl⟩ : ∃ m', m = m' + 1 := ⟨m - 1, by omega⟩
      simp [skipValue, wtag, encodeWv]
    | wi32 n =>
      refine ⟨1, ?_⟩
      intro m hm rest
      obtain ⟨m', rfl⟩ : ∃ m', m = m' + 1 := ⟨m - 1, by omega⟩
      simp [skipValue, wtag, encodeWv]
    | wi64 n =>
      refine ⟨1, ?_⟩
      intro m hm rest
      obtain ⟨m', rfl⟩ : ∃ m', m = m' + 1 := ⟨m - 1, by omega⟩
      simp [skipValue, wtag, encodeWv]
    | wdouble q =>
      refine ⟨1, ?_⟩
      intro m hm rest
      obtain ⟨m', rfl⟩ : ∃ m', m = m' + 1 := ⟨m - 1, by omega⟩
      simp [skipValue, wtag, encodeWv]
    | wstr s =>
      refine ⟨1, ?_⟩
      intro m hm rest
      obtain ⟨m', rfl⟩ : ∃ m', m = m' + 1 := ⟨m - 1, by omega⟩
      simp [skipValue, wtag, encodeWv]
    | wstruct flds =>
      rename_i hflds
      obtain ⟨n, H⟩ := skipWv_fields flds fun p hp =>
        ihN p.2 (by have := sizeOf_wfield_lt hp; omega) (WFwFields_mem hflds hp)
      refine ⟨n + 1, ?_⟩
      intro m hm rest
      obtain ⟨m', rfl⟩ : ∃ m', m = m' + 1 := ⟨m - 1, by omega⟩
      simp only [wtag, encodeWv, List.append_assoc]
      simp only [skipValue, tagKind_struct]
      exact H m' (by omega) rest
    | wmap kt vt prs =>
      rename_i hprs
      obtain ⟨n, H⟩ := skipWv_pairs kt vt prs hprs fun p hp =>
        ⟨ihN p.1 (by have := (sizeOf_wpair_lt hp kt vt).1; omega)
            ((WFwPairs_mem hprs hp).2.1),
         ihN p.2 (by have := (sizeOf_wpair_lt hp kt vt).2; omega)
            ((WFwPairs_mem hprs hp).2.2)⟩
      refine ⟨n + 1, ?_⟩
      intro m hm rest
      obtain ⟨m', rfl⟩ : ∃ m', m = m' + 1 := ⟨m - 1, by omega⟩
      simp only [wtag, encodeWv, List.cons_append, List.append_assoc]
      simp only [skipValue, tagKind_map, readMapBegin]
      have := H m' (by omega) rest
      simpa using this
    | wlist et elems =>
      rename_i helems
      obtain ⟨n, H⟩ := skipWv_elems et elems helems fun x hx =>
        ihN x (by have := (sizeOf_welem_lt hx et).1; omega) (WFwElems_mem helems hx).2
      refine ⟨n + 1, ?_⟩
      intro m hm rest
      obtain ⟨m', rfl⟩ : ∃ m', m = m' + 1 := ⟨m - 1, by omega⟩
      simp only [wtag, encodeWv, List.cons_append, List.append_assoc]
      simp only [skipValue, tagKind_list, readListBegin]
      have := H m' (by omega) rest
      simpa using this
    | wset et elems =>
      rename_i helems
      obtain ⟨n, H⟩ := skipWv_elems et elems helems fun x hx =>
        ihN x (by have := (sizeOf_welem_lt hx et).2; omega) (WFwElems_mem helems hx).2
      refine ⟨n + 1, ?_⟩
      intro m hm rest
      obtain ⟨m', rfl⟩ : ∃ m', m = m' + 1 := ⟨m - 1, by omega⟩
      simp only [wtag, encodeWv, List.cons_append, List.append_assoc]
      simp only [skipValue]
      have hsk : tagKind TType.SET = TKind.kSet := by decide
      simp only [hsk, readListBegin]
      have := H m' (by omega) rest
      simpa using this

lemma readStructFields_cons_skip (sch : Schema) (m : Nat) (sd : StructDef)
    (acc : List (String × GoValue)) {tag id : Int} (htag : tag ≠ TType.STOP)
    (hfind : findFieldById sd.fields id = none) {toks r2 : List Tok}
    (hskip : skipValue m tag toks = .ok r2) :
    readStructFields sch (m + 1) sd acc (.tbyte tag :: .ti16 id :: toks) =
      readStructFields sch m sd acc r2 := by
  simp [readStructFields, readFieldBegin, htag, hfind, hskip]

lemma items_fields (sch : Schema) (sd : StructDef)
    (hids : sd.fields.Pairwise (fun a b => a.id ≠ b.id))
    (hbounds : ∀ f ∈ sd.fields, -(2 ^ 15) ≤ f.id ∧ f.id < 2 ^ 15) :
    ∀ (items : List FieldItem),
      (∀ f v, FieldItem.known f v ∈ items →
        f ∈ sd.fields ∧ SV sch f.type v ∧ RT sch f.type v) →
      (∀ id w, FieldItem.unknown id w ∈ items →
        SkipRT w ∧ findFieldById sd.fields id = none) →
      (knownNames items).Nodup →
      ∃ toks result n, ∀ m, n ≤ m →
        encodeItems sch m items = .ok toks ∧
        normItems sch m items = some result ∧
        ∀ acc rest, (∀ nme ∈ knownNames items, alookup acc nme = none) →
          readStructFields sch m sd acc (toks ++ .tbyte TType.STOP :: rest) =
            .ok (acc ++ result, rest) := by
  intro items
  induction items with
  | nil =>
    intro _ _ _
    refine ⟨[], [], 1, ?_⟩
    intro m hm
    obtain ⟨m', rfl⟩ : ∃ m', m = m' + 1 := ⟨m - 1, by omega⟩
    refine ⟨by simp [encodeItems], by simp [normItems], ?_⟩
    intro acc rest _
    simp [readStructFields_stop]
  | cons item rest0 ih =>
    intro hk hu hnd
    cases item with
    | known f v =>
      obtain ⟨hfmem, hsv, htoks, v', nx, Hx⟩ := hk f v (List.mem_cons_self _ _)
      have hndrest : (knownNames rest0).Nodup ∧ f.name ∉ knownNames rest0 := by
        have := hnd
        simp only [knownNames, List.nodup_cons] at this
        exact ⟨this.2, this.1⟩
      obtain ⟨rtoks, result', nr, Hr⟩ :=
        ih (fun g w hgm => hk g w (List.mem_cons_of_mem _ hgm))
          (fun id w hgm => hu id w (List.mem_cons_of_mem _ hgm)) hndrest.1
      have htag : LookupType sch.types f.type.name ≠ TType.STOP := hsv.tag_ne_stop
      have hid : wrap16 f.id = f.id :=
        wrap16_eq_self (hbounds f hfmem).1 (hbounds f hfmem).2
      have hfind : findFieldById sd.fields f.id = some f :=
        findFieldById_of_mem _ _ hfmem hids
      refine ⟨.tbyte (LookupType sch.types f.type.name) :: .ti16 f.id ::
        (htoks ++ rtoks), (f.name, v') :: result', max nx nr + 1, ?_⟩
      intro m hm
      obtain ⟨m', rfl⟩ : ∃ m', m = m' + 1 := ⟨m - 1, by omega⟩
      obtain ⟨hWx, hNx, hRx⟩ := Hx (m' + 1) (by omega)
      obtain ⟨hWr, hNr, _⟩ := Hr (m' + 1) (by omega)
      obtain ⟨_, _, hRr⟩ := Hr m' (by omega)
      refine ⟨?_, ?_, ?_⟩
      · simp [encodeItems, hWx, hWr, hid]
      · simp [normItems, hNx, hNr]
      · intro acc rest hdisj
        have haccf : alookup acc f.name = none :=
          hdisj f.name (by simp [knownNames])
        simp only [List.cons_append, List.append_assoc]
        rw [readStructFields_cons_known sch m' sd acc htag hfind]
        obtain ⟨_, _, hRx'⟩ := Hx m' (by omega)
        simp only [hRx']
        have hset : aset acc f.name v' = acc ++ [(f.name, v')] :=
          aset_fresh _ _ _ haccf
        rw [hset]
        have hdisj' : ∀ nme ∈ knownNames rest0,
            alookup (acc ++ [(f.name, v')]) nme = none := by
          intro nme hgm
          rw [alookup_append_one]
          have h1 : alookup acc nme = none :=
            hdisj nme (by simp [knownNames, hgm])
          have h2 : f.name ≠ nme := fun hEq => hndrest.2 (hEq ▸ hgm)
          simp [h1, h2]
        rw [hRr (acc ++ [(f.name, v')]) rest hdisj']
        simp
    | unknown id w =>
      obtain ⟨⟨nw, Hw⟩, hfind⟩ := hu id w (List.mem_cons_self _ _)
      have hndrest : (knownNames rest0).Nodup := by
        simpa [knownNames] using hnd
      obtain ⟨rtoks, result', nr, Hr⟩ :=
        ih (fun g v hgm => hk g v (List.mem_cons_of_mem _ hgm))
          (fun id' w' hgm => hu id' w' (List.mem_cons_of_mem _ hgm)) hndrest
      refine ⟨.tbyte (wtag w) :: .ti16 id :: (encodeWv w ++ rtoks),
        result', max nw nr + 1, ?_⟩
      intro m hm
      obtain ⟨m', rfl⟩ : ∃ m', m = m' + 1 := ⟨m - 1, by omega⟩
      obtain ⟨hWr, hNr, _⟩ := Hr (m' + 1) (by omega)
      obtain ⟨_, _, hRr⟩ := Hr m' (by omega)
      refine ⟨?_, ?_, ?_⟩
      · simp [encodeItems, hWr]
      · simpa [normItems] using hNr
      · intro acc rest hdisj
        simp only [List.cons_append, List.append_assoc]
        rw [readStructFields_cons_skip sch m' sd acc (wtag_ne_stop w) hfind
          (Hw m' (by omega) (rtoks ++ .tbyte TType.STOP :: rest))]
        exact hRr acc rest fun nme hgm => hdisj nme (by simpa [knownNames] using hgm)

/-- Struct payload round-trip with undeclared fields: the encoded payload body
is decoded to exactly the declared fields' normalized values; every field whose
index the descriptor does not declare is skipped and dropped. -/
theorem items_main (sch : Schema) (hwf : WFSchema sch) (t : PType) (sd : StructDef)
    (hsd : alookup sch.structs t.name = some sd)
    (items : List FieldItem)
    (hk : ∀ f v, FieldItem.known f v ∈ items → f ∈ sd.fields ∧ SV sch f.type v)
    (hu : ∀ id w, FieldItem.unknown id w ∈ items →
      WFw w ∧ ∀ f ∈ sd.fields, f.id ≠ id)
    (hnd : (knownNames items).Nodup) :
    ∃ toks result n, ∀ m, n ≤ m →
      encodeItems sch m items = .ok toks ∧
      normItems sch m items = some result ∧
      ∀ rest, readStruct sch (m + 1) t (toks ++ .tbyte TType.STOP :: rest) =
        .ok (.vmap result, rest) := by
  obtain ⟨hpw, hbounds⟩ := hwf t.name sd hsd
  have hids : sd.fields.Pairwise (fun a b => a.id ≠ b.id) :=
    hpw.imp fun h => h.2
  obtain ⟨toks, result, n, H⟩ := items_fields sch sd hids hbounds items
    (fun f v hm => ⟨(hk f v hm).1, (hk f v hm).2, rt_main sch hwf v f.type (hk f v hm).2⟩)
    (fun id w hm => ⟨skip_main w (hu id w hm).1,
      findFieldById_none _ _ (hu id w hm).2⟩)
    hnd
  refine ⟨toks, result, n, ?_⟩
  intro m hm
  obtain ⟨hW, hN, hR⟩ := H m hm
  refine ⟨hW, hN, ?_⟩
  intro rest
  simp only [readStruct, hsd]
  rw [hR [] rest fun nme _ => rfl]
  simp

/- Facts about the concrete example fixtures, used to discharge the general
theorems' hypotheses at concrete inputs. -/

lemma exSchema_wf : WFSchema exSchema := by
  intro nm sd h
  simp only [exSchema, alookup] at h
  split at h
  · cases h
    constructor
    · decide
    · decide
  · split at h
    · cases h
      constructor
      · decide
      · decide
    · cases h

lemma exPairVal_sv : SV exSchema (PType.base "Pair") exPairVal := by
  refine SV.strct exSchema (PType.base "Pair") pairSD _ (by decide) rfl ?_
  refine SVFields.present exSchema _ _ _ (.vi32 5) rfl ?_ ?_
  · exact SV.i64 exSchema _ (.vi32 5) 5 (by decide) rfl
  refine SVFields.present exSchema _ _ _ (.vstr "7") rfl ?_ ?_
  · exact SV.i16 exSchema _ (.vstr "7") 7 (by decide) rfl
  exact SVFields.nil exSchema _

/- The claims. -/

/-- C1: over a well-formed schema, every schema-valid generic value `v` at a
primitive, struct, map, or list type reference `t` round-trips: `WriteValue`
produces a token stream that `ReadValue` consumes exactly and decodes to the
normalization of `v` — `v` itself up to dropping struct keys not declared in
`t` and normalizing numeric values to the wire width of `t` (`normV`). -/
theorem claim_C1 (sch : Schema) (hwf : WFSchema sch) (t : PType) (v : GoValue)
    (hsv : SV sch t v) :
    ∃ toks v' n, ∀ m, n ≤ m →
      writeValue sch m t v = .ok toks ∧ normV sch m t v = some v' ∧
      ∀ rest, readValue sch m t (toks ++ rest) = .ok (v', rest) :=
  rt_main sch hwf v t hsv

/-- C1 witness: the round trip at the concrete example schema and a `Pair`
value carrying an undeclared extra key and numerically-coercible fields. -/
theorem claim_C1_witness :
    WFSchema exSchema ∧ SV exSchema (PType.base "Pair") exPairVal ∧
    ∃ toks v' n, ∀ m, n ≤ m →
      writeValue exSchema m (PType.base "Pair") exPairVal = .ok toks ∧
      normV exSchema m (PType.base "Pair") exPairVal = some v' ∧
      ∀ rest, readValue exSchema m (PType.base "Pair") (toks ++ rest) = .ok (v', rest) :=
  ⟨exSchema_wf, exPairVal_sv,
    claim_C1 exSchema exSchema_wf (PType.base "Pair") exPairVal exPairVal_sv⟩

/-- C4: a struct payload containing fields whose indices match no declared
field ID of the descriptor decodes without error: each unknown field's payload
is skipped using the wire type tag from its own header and is absent from the
resulting mapping, while each field matching a declared ID is read recursively
and stored under the declared field's name. -/
theorem claim_C4 (sch : Schema) (hwf : WFSchema sch) (t : PType) (sd : StructDef)
    (hsd : alookup sch.structs t.name = some sd)
    (items : List FieldItem)
    (hk : ∀ f v, FieldItem.known f v ∈ items → f ∈ sd.fields ∧ SV sch f.type v)
    (hu : ∀ id w, FieldItem.unknown id w ∈ items →
      WFw w ∧ ∀ f ∈ sd.fields, f.id ≠ id)
    (hnd : (knownNames items).Nodup) :
    ∃ toks result n, ∀ m, n ≤ m →
      encodeItems sch m items = .ok toks ∧
      normItems sch m items = some result ∧
      ∀ rest, readStruct sch (m + 1) t (toks ++ .tbyte TType.STOP :: rest) =
        .ok (.vmap result, rest) :=
  items_main sch hwf t sd hsd items hk hu hnd

/-- C4 witness: a `Pair` payload carrying the declared field `x` and an
unknown field with index `9` decodes to a mapping holding only `x`. -/
theorem claim_C4_witness :
    WFSchema exSchema ∧
    ∃ toks result n, ∀ m, n ≤ m →
      encodeItems exSchema m exItems = .ok toks ∧
      normItems exSchema m exItems = some result ∧
      ∀ rest, readStruct exSchema (m + 1) (PType.base "Pair")
          (toks ++ .tbyte TType.STOP :: rest) = .ok (.vmap result, rest) :=
  ⟨exSchema_wf,
    claim_C4 exSchema exSchema_wf (PType.base "Pair") pairSD rfl exItems
      (by
        intro f v hm
        rcases List.mem_cons.mp hm with h | h
        · injection h with h1 h2
          subst h1
          subst h2
          exact ⟨List.mem_cons_self _ _, SV.i64 exSchema _ (.vi64 7) 7 (by decide) rfl⟩
        · rcases List.mem_cons.mp h with h2 | h2
          · cases h2
          · cases h2)
      (by
        intro id w hm
        rcases List.mem_cons.mp hm with h | h
        · cases h
        · rcases List.mem_cons.mp h with h2 | h2
          · injection h2 with h1 h3
            subst h1
            subst h3
            exact ⟨WFw.wbool true, by decide⟩
          · cases h2)
      (by decide)⟩

/-- C5: type resolution is total — `LookupType` returns the registered tag and
the STOP sentinel for any name absent from the registry, never an error;
registering the typedef `MyId -> i64` makes `MyId` resolve to the same tag as
`i64`; and `NewService` fails with an error when a typedef's target name
cannot itself be resolved at load time. -/
theorem claim_C5 :
    (∀ (types : TypeMap) (name : String) (tag : Int),
      (alookup types name = some tag → LookupType types name = tag) ∧
      (alookup types name = none → LookupType types name = TType.STOP)) ∧
    ((NewService defultTypeNameMap thMyId "S").2 = .ok ⟨⟨"S", []⟩, []⟩ ∧
      LookupType (NewService defultTypeNameMap thMyId "S").1 "MyId" =
        LookupType (NewService defultTypeNameMap thMyId "S").1 "i64") ∧
    (NewService defultTypeNameMap thBadTypedef "S").2 =
      .error (.err "type NoSuch not found") := by
  refine ⟨?_, ⟨rfl, by decide⟩, rfl⟩
  intro types name tag
  constructor
  · intro h
    simp [LookupType, h]
  · intro h
    simp [LookupType, h]

/-- C5 witness: resolution at a concrete registered name, a concrete absent
name, and the typedef fixtures. -/
theorem claim_C5_witness :
    alookup defultTypeNameMap "bool" = some TType.BOOL ∧
    LookupType defultTypeNameMap "bool" = TType.BOOL ∧
    alookup defultTypeNameMap "NoSuch" = none ∧
    LookupType defultTypeNameMap "NoSuch" = TType.STOP :=
  ⟨by decide, (claim_C5.1 defultTypeNameMap "bool" TType.BOOL).1 (by decide),
    by decide, (claim_C5.1 defultTypeNameMap "NoSuch" TType.BOOL).2 (by decide)⟩

/-- C2: on a fresh session `send` computes sequence id `0 + 1 = 1` and stores
it in its own receiver, and a response carrying a mismatched sequence id is
rejected with a BAD_SEQUENCE_ID application exception and no value — but
because `Call` has a VALUE receiver, the increment never reaches the caller's
session: every call made with the caller's (unchanged) session writes sequence
id `1` on the wire again, so two sequential calls do not carry ids `1` then
`2` as the specification states. -/
theorem claim_C2 :
    (exClient.send exReg 20 "ping" []).2 =
      .ok [.tmsg "ping" MType.CALL 1, .tbyte TType.STOP] ∧
    ((exClient.send exReg 20 "ping" []).1).seqId = 1 ∧
    (∀ input : List Tok,
      (Client.Call exClient exReg 20 "ping" [] input).2 =
        [.tmsg "ping" MType.CALL 1, .tbyte TType.STOP]) ∧
    (Client.Call exClient exReg 20 "ping" [] (exReply 1)).1 = .ok (.vi64 42, []) ∧
    ∀ seq : Int, (1 : Int) ≠ seq →
      ((exClient.send exReg 20 "ping" []).1).recv exReg 20 (exReply seq) =
        .error (.appExc BAD_SEQUENCE_ID "Response out of sequence") := by
  refine ⟨rfl, rfl, fun _ => rfl, rfl, ?_⟩
  intro seq hne
  have h1 : (exClient.send exReg 20 "ping" []).1 = ⟨1, exService⟩ := rfl
  rw [h1]
  simp only [Client.recv, exReply]
  rw [if_neg (by decide : ¬ (MType.REPLY = MType.EXCEPTION))]
  rw [if_pos (show (Client.mk 1 exService).seqId ≠ seq from hne)]

/-- C2 witness: the mismatch branch at the concrete forged sequence id `7`. -/
theorem claim_C2_witness :
    (1 : Int) ≠ 7 ∧
    ((exClient.send exReg 20 "ping" []).1).recv exReg 20 (exReply 7) =
      .error (.appExc BAD_SEQUENCE_ID "Response out of sequence") :=
  ⟨by decide, claim_C2.2.2.2.2 7 (by decide)⟩

/-- C3 counterexample: a response whose first field index is `1` (the declared
exception range of `ping`) decodes the `Err` exception payload and
`ReadResponse` returns it as a SUCCESSFUL value (`.ok`), not as the call's
error — refuting the claim that the decoded exception is surfaced in the error
position. -/
theorem claim_C3_cex :
    readResponse exService exReg 10 "ping"
      [.tbyte TType.STRUCT, .ti16 1, .tbyte TType.STRING, .ti16 1, .tstr "boom",
        .tbyte TType.STOP, .tbyte TType.STOP] =
      .ok (.vmap [("msg", .vstr "boom")], []) := rfl

/-- C3 (amended): a response field index in `1..N` selects the exception
descriptor registered at that index and decodes the payload at the exception's
type, but `ReadResponse` returns the decoded exception in the VALUE position
of a successful result, not as the call's error; index `0` selects the
declared return type. -/
theorem claim_C3 (svc : Service) (g : TypeMap) (n : Nat) (mname : String)
    (method : Method) (hm : alookup svc.base.methods mname = some method)
    (tag index : Int) (htag : tag ≠ TType.STOP)
    (hlo : 1 ≤ index) (hhi : index ≤ Int.ofNat method.exceptions.length)
    (f : Field) (hexc : goIdx method.exceptions (index - 1) = some f)
    (r r2 r3 : List Tok) (v : GoValue) (tag2 idx2 : Int)
    (hv : readValue ⟨g, svc.structs⟩ n f.type r = .ok (v, r2))
    (hfb : readFieldBegin r2 = .ok (tag2, idx2, r3)) :
    readResponse svc g n mname (.tbyte tag :: .ti16 index :: r) = .ok (v, r3) ∧
    respFieldSel method 0 = .ret := by
  constructor
  · have hfb1 : readFieldBegin (.tbyte tag :: .ti16 index :: r) = .ok (tag, index, r) := by
      simp [readFieldBegin, htag]
    have hsel : respFieldSel method index = .exc f := by
      simp only [respFieldSel, if_neg (by omega : ¬ index = 0), if_pos hhi, hexc]
    simp only [readResponse, hm, hfb1, hsel, hv, hfb]
  · simp [respFieldSel]

/-- C3 witness: the general statement instantiated at the `ping` fixture and
the concrete exception payload of the counterexample. -/
theorem claim_C3_witness :
    alookup exService.base.methods "ping" = some pingMethod ∧
    goIdx pingMethod.exceptions ((1 : Int) - 1) = some ⟨1, "e", false, .base "Err"⟩ ∧
    readResponse exService exReg 10 "ping"
      (.tbyte TType.STRUCT :: .ti16 1 ::
        [.tbyte TType.STRING, .ti16 1, .tstr "boom", .tbyte TType.STOP,
          .tbyte TType.STOP]) =
      .ok (.vmap [("msg", .vstr "boom")], []) ∧
    respFieldSel pingMethod 0 = .ret := by
  refine ⟨rfl, rfl, ?_⟩
  have h := claim_C3 exService exReg 10 "ping" pingMethod rfl TType.STRUCT 1
    (by decide) (by decide) (by decide) ⟨1, "e", false, .base "Err"⟩ rfl
    [.tbyte TType.STRING, .ti16 1, .tstr "boom", .tbyte TType.STOP, .tbyte TType.STOP]
    [.tbyte TType.STOP] [] (.vmap [("msg", .vstr "boom")]) TType.STOP 0 rfl rfl
  exact h

/-- C6: inside `ReadStruct` the error of a failed `Skip` is discarded — the
skip of a BOOL-tagged unknown field over data that is not a bool fails with a
genuine protocol error, yet decoding the enclosing struct completes
successfully at the same position instead of aborting with that error,
refuting the claim that no nested error is silently swallowed. -/
theorem claim_C6 :
    skipValue 5 TType.BOOL [.tbyte TType.STOP, .tstr "tail"] =
      .error (.err "skip bool") ∧
    readStruct exSchema 6 (PType.base "Pair")
      [.tbyte TType.BOOL, .ti16 9, .tbyte TType.STOP, .tstr "tail"] =
      .ok (.vmap [], [.tstr "tail"]) :=
  ⟨rfl, rfl⟩

/-- C7 counterexample: after decoding the single response field, `ReadResponse`
reads exactly ONE further field header and returns, leaving the remaining
tokens — here a whole extra field and the stop marker — unconsumed, refuting
the claim that it continues discarding fields until the stop marker. -/
theorem claim_C7_cex :
    readResponse exService exReg 10 "ping"
      [.tbyte TType.I64, .ti16 0, .ti64 42, .tbyte TType.BOOL, .ti16 2,
        .tbool true, .tbyte TType.STOP] =
      .ok (.vi64 42, [.tbool true, .tbyte TType.STOP]) ∧
    ([.tbool true, .tbyte TType.STOP] : List Tok) ≠ [] :=
  ⟨rfl, by decide⟩

/-- C7 (amended): after decoding the single field selected by index `0`,
`ReadResponse` consumes exactly one further field header — whatever it is —
and returns immediately, leaving everything after that header unread; it does
not loop to the struct's stop marker. -/
theorem claim_C7 (svc : Service) (g : TypeMap) (n : Nat) (mname : String)
    (method : Method) (hm : alookup svc.base.methods mname = some method)
    (tag : Int) (htag : tag ≠ TType.STOP)
    (r r2 r3 : List Tok) (v : GoValue) (tag2 idx2 : Int)
    (hv : readValue ⟨g, svc.structs⟩ n method.returnType r = .ok (v, r2))
    (hfb : readFieldBegin r2 = .ok (tag2, idx2, r3)) :
    readResponse svc g n mname (.tbyte tag :: .ti16 0 :: r) = .ok (v, r3) := by
  have hfb1 : readFieldBegin (.tbyte tag :: .ti16 0 :: r) = .ok (tag, 0, r) := by
    simp [readFieldBegin, htag]
  have hsel : respFieldSel method 0 = .ret := by
    simp [respFieldSel]
  simp only [readResponse, hm, hfb1, hsel, hv, hfb]

/-- C7 witness: the amended statement at the counterexample's input, where the
one extra header consumed is a BOOL field header and a trailing payload and
stop marker are left unread. -/
theorem claim_C7_witness :
    alookup exService.base.methods "ping" = some pingMethod ∧
    readResponse exService exReg 10 "ping"
      (.tbyte TType.I64 :: .ti16 0 ::
        [.ti64 42, .tbyte TType.BOOL, .ti16 2, .tbool true, .tbyte TType.STOP]) =
      .ok (.vi64 42, [.tbool true, .tbyte TType.STOP]) := by
  refine ⟨rfl, ?_⟩
  have h := claim_C7 exService exReg 10 "ping" pingMethod rfl TType.I64 (by decide)
    [.ti64 42, .tbyte TType.BOOL, .ti16 2, .tbool true, .tbyte TType.STOP]
    [.tbyte TType.BOOL, .ti16 2, .tbool true, .tbyte TType.STOP]
    [.tbool true, .tbyte TType.STOP] (.vi64 42) TType.BOOL 2 rfl rfl
  exact h

/-- C8 counterexample: writing an i16-typed integer into a BYTE-typed slot
fails with a conversion error, while the converse coercion (a byte-typed
integer into an I16 slot) succeeds — BYTE accepts only the exact byte dynamic
type and takes no part in the numeric coercion the other numeric tags get. -/
theorem claim_C8_cex :
    writeValue exSchema 5 (PType.base "byte") (.vi16 5) =
      .error (.err "cannot convert to type byte.") ∧
    writeValue exSchema 5 (PType.base "i16") (.vbyte 5) = .ok [.ti16 5] :=
  ⟨rfl, rfl⟩

/-- C8 (amended): at a type resolving to the BYTE tag, `WriteValue` accepts
exactly the byte dynamic type and rejects every other value — integers of
other widths, floats, and numeric strings included — with a conversion error;
there is no numeric coercion at BYTE, unlike I16/I32/I64/DOUBLE. -/
theorem claim_C8 (sch : Schema) (t : PType) (v : GoValue) (n : Nat)
    (ht : LookupType sch.types t.name = TType.BYTE) :
    writeValue sch (n + 1) t v =
      match v with
      | .vbyte b => .ok [.tbyte b]
      | _ => .error (.err ("cannot convert to type " ++ t.name ++ ".")) := by
  simp only [writeValue, ht, tagKind_byte]

/-- C8 witness: the amended statement at the concrete registry, evaluated on
an i16 value (rejected) at a BYTE-typed slot. -/
theorem claim_C8_witness :
    LookupType exSchema.types "byte" = TType.BYTE ∧
    writeValue exSchema 5 (PType.base "byte") (.vi16 5) =
      .error (.err "cannot convert to type byte.") :=
  ⟨by decide, claim_C8 exSchema (PType.base "byte") (.vi16 5) 4 (by decide)⟩

/-- C9: `NewService` assigns `types = defultTypeNameMap` without copying, so
the registry aliases the package-global map: constructing a second `Service`
for an IDL declaring the enum `Color` mutates the shared map, changing the
first service's `LookupType` result for `"Color"` from the STOP sentinel to
I32 — the registry is NOT immutable after construction as claimed. -/
theorem claim_C9 :
    (NewService defultTypeNameMap thEmpty "S").2 = .ok ⟨⟨"S", []⟩, []⟩ ∧
    LookupType (NewService defultTypeNameMap thEmpty "S").1 "Color" = TType.STOP ∧
    LookupType
      (NewService (NewService defultTypeNameMap thEmpty "S").1 thColor "S2").1
      "Color" = TType.I32 :=
  ⟨rfl, by decide, by decide⟩

/-- C10: a negative response field index reaches the `method.Exceptions[index-1]`
slice access at a negative position — a Go panic, not an error return — and
`ReadResponse` dies with that panic; the protocol-violation error branch is
reached exactly when the index strictly exceeds the number of declared
exceptions. -/
theorem claim_C10 (method : Method) (index : Int) (hneg : index < 0) :
    respFieldSel method index = .outOfRange ∧
    (∀ (svc : Service) (g : TypeMap) (n : Nat) (mname : String) (tag : Int)
        (r : List Tok), alookup svc.base.methods mname = some method →
        tag ≠ TType.STOP →
        readResponse svc g n mname (.tbyte tag :: .ti16 index :: r) =
          .error (.panicked "index out of range")) ∧
    ∀ j : Int, (respFieldSel method j = .viol ↔
      Int.ofNat method.exceptions.length < j) := by
  have hb : (0 : Int) ≤ Int.ofNat method.exceptions.length := Int.ofNat_nonneg _
  have hsel : respFieldSel method index = .outOfRange := by
    have hgi : goIdx method.exceptions (index - 1) = none := by
      unfold goIdx
      rw [if_pos (by omega : index - 1 < 0)]
    simp only [respFieldSel, if_neg (by omega : ¬ index = 0),
      if_pos (by omega : index ≤ Int.ofNat method.exceptions.length), hgi]
  refine ⟨hsel, ?_, ?_⟩
  · intro svc g n mname tag r hm htag
    have hfb1 : readFieldBegin (.tbyte tag :: .ti16 index :: r) =
        .ok (tag, index, r) := by
      simp [readFieldBegin, htag]
    simp only [readResponse, hm, hfb1, hsel]
  · intro j
    constructor
    · intro h
      by_contra hle
      simp only [respFieldSel] at h
      by_cases hj : j = 0
      · simp [hj] at h
      · rw [if_neg hj, if_pos (by omega)] at h
        cases hgj : goIdx method.exceptions (j - 1) <;> simp [hgj] at h
    · intro h
      have hj0 : ¬ j = 0 := by omega
      simp only [respFieldSel, if_neg hj0, if_neg (by omega : ¬ j ≤ Int.ofNat method.exceptions.length)]

/-- C10 witness: the panic at the concrete negative index `-3` on the `ping`
fixture, and the protocol-violation characterization at index `2` (one past
the single declared exception). -/
theorem claim_C10_witness :
    ((-3 : Int) < 0) ∧
    respFieldSel pingMethod (-3) = .outOfRange ∧
    readResponse exService exReg 5 "ping" [.tbyte TType.STRING, .ti16 (-3), .tstr "x"] =
      .error (.panicked "index out of range") ∧
    (respFieldSel pingMethod 2 = .viol ↔ Int.ofNat pingMethod.exceptions.length < 2) :=
  ⟨by decide, (claim_C10 pingMethod (-3) (by decide)).1,
    (claim_C10 pingMethod (-3) (by decide)).2.1 exService exReg 5 "ping"
      TType.STRING [.tstr "x"] rfl (by decide),
    (claim_C10 pingMethod (-3) (by decide)).2.2 2⟩

end GoThrift
